import Mathlib

/-!
# Verification of the echortc call-session engine (`src/echortc.py`)

Shallow embedding of the maubot echortc plugin: the `ProxyTrack` media proxy,
the `WrappedConn` registry, and the `candidates` / `hangup` / `invite` event
handlers together with the `task` scripted pipeline, the `connectionstatechange`
and `track` callbacks of the peer connection.

Modelling conventions:
* asyncio futures over `None` live in a store `futures : List Bool`
  (`true` = resolved); `set_result` on a resolved future raises
  `InvalidStateError`, which we surface as an error action in the trace.
* Coroutines suspended at an `await` are defunctionalised as `TaskK` values
  held in `Sys.tasks`; a schedule (`List SchedStep`) decides when events are
  delivered and when suspended tasks resume, mirroring the cooperative
  event-loop interleavings of asyncio.  `invite` runs synchronously up to
  its first true suspension point (`await pc.setRemoteDescription`, line 210),
  then as `inviteCont1` (lines 210-215, suspending on `candidate_waiter`),
  then as `inviteCont2` (lines 219-229).
* Time is in tenths of a second: `sleep(8.1)` = 81 ticks, etc.
* The aioice candidate parser is external to the repository; the semantics is
  parameterised by `parse : String → Option String` (`none` = `ValueError`).
* Side effects on external collaborators (messaging client, recorders,
  blackhole, players) are recorded as timestamped `Action`s in a trace.
-/

set_option maxRecDepth 100000

namespace EchoRTC

/-- `UniqueCallID = Tuple[RoomID, UserID, str]` (line 21): room, sender, call id. -/
structure UID where
  room : String
  sender : String
  callId : String
deriving DecidableEq, Repr, Inhabited

/-- State of an `RTCPeerConnection` as far as the plugin observes it:
remote/local descriptions, applied ICE candidates, connection state, closed. -/
structure PCState where
  remoteDesc : Option String
  localDesc : Option String
  ice : List String
  connState : String
  closed : Bool
deriving DecidableEq, Repr

/-- A freshly constructed `RTCPeerConnection()` (line 117). -/
def PCState.fresh : PCState :=
  { remoteDesc := none, localDesc := none, ice := [], connState := "new", closed := false }

instance : Inhabited PCState := ⟨PCState.fresh⟩

/-- `WrappedConn` (lines 57-61): the peer connection plus the two rendezvous
futures.  The pc and the futures are heap objects, so the conn stores indices
into the `pcs` and `futures` stores.  `invite` (lines 125-127) evaluates
`candidate_waiter=self.loop.create_future()` before `prepare_waiter=...`,
so the candidate future gets the lower index. -/
structure Conn where
  pcId : Nat
  candidateFid : Nat
  prepareFid : Nat
deriving DecidableEq, Repr

/-- `ProxyTrack` (lines 24-54): a switchable media source.  `source` is the
current producer, `sourceWait` the rendezvous future (`none` = the attribute is
`None`; `some b` = a future whose done-flag is `b`).  Parameterised over the
producer type: the session model names producers by strings, the frame-level
model uses frame lists. -/
structure ProxyTrack (α : Type) where
  source : Option α
  sourceWait : Option Bool
deriving DecidableEq, Repr

instance : Inhabited (ProxyTrack α) := ⟨⟨none, none⟩⟩

/-- `ProxyTrack.set_source` (lines 35-38): install the producer, then resolve
the rendezvous future if the attribute is not `None`.  Returns the updated
track and whether `set_result` raised `InvalidStateError` (the future was
already resolved).  Note the producer is installed before the raise. -/
def ProxyTrack.set_source (t : ProxyTrack α) (s : α) : ProxyTrack α × Bool :=
  match t.sourceWait with
  | none => ({ source := some s, sourceWait := none }, false)
  | some false => ({ source := some s, sourceWait := some true }, false)
  | some true => ({ source := some s, sourceWait := some true }, true)

/-- Outcome of one `ProxyTrack.recv` call at the frame level. -/
inductive RecvOutcome where
  /-- A frame was returned; carries the frame and the post-state. -/
  | frame (n : Nat) (t : ProxyTrack (List Nat))
  /-- The call is suspended on the rendezvous future and no further
  `set_source` happens: it blocks (no error is raised). -/
  | blocked (t : ProxyTrack (List Nat))
  /-- A `MediaStreamError` propagated to the caller. -/
  | mediaError (t : ProxyTrack (List Nat))
  /-- `self._source_wait` was `None` while `source` was `None`
  (`await None`, impossible under the constructor invariant). -/
  | crash (t : ProxyTrack (List Nat))
deriving DecidableEq, Repr

/-- Second half of `recv` (lines 43-49): pull from the current producer; on
`MediaStreamError` (exhausted producer), clear the producer, arm a fresh
rendezvous future, block until a replacement arrives (`env` supplies the
`set_source` calls made while blocked) and pull once from the replacement.
A producer is a list of pending frames; an empty list raises
`MediaStreamError` on `recv`. -/
def ProxyTrack.recvPull (t : ProxyTrack (List Nat)) (env : List (List Nat)) :
    RecvOutcome :=
  match t.source with
  | none => .crash t
  | some [] =>
    let t1 : ProxyTrack (List Nat) := { source := none, sourceWait := some false }
    match env with
    | [] => .blocked t1
    | p :: _ =>
      let t2 := (t1.set_source p).1
      match p with
      | [] => .mediaError t2
      | n :: rest => .frame n { t2 with source := some rest }
  | some (n :: rest) => .frame n { t with source := some rest }

/-- `ProxyTrack.recv` (lines 40-49).  If no producer is set, await the
rendezvous future: if it is unresolved, the call blocks until the environment
makes a `set_source` call (head of `env`); an `await` on an already-resolved
future returns immediately.  Then pull a frame via `recvPull`. -/
def ProxyTrack.recv (t : ProxyTrack (List Nat)) (env : List (List Nat)) :
    RecvOutcome :=
  match t.source with
  | some _ => t.recvPull env
  | none =>
    match t.sourceWait with
    | none => .crash t
    | some true => t.recvPull env
    | some false =>
      match env with
      | [] => .blocked t
      | p :: env1 => ((t.set_source p).1).recvPull env1

/-- Per-invite closure state shared by `task`, `on_connectionstatechange` and
`on_track` (lines 133-138): the bound input-track kinds (`input_tracks` keys),
the two output proxy tracks, and whether the blackhole is consuming. -/
structure Closure where
  uid : UID
  inputTracks : List String
  audioTrack : ProxyTrack String
  videoTrack : ProxyTrack String
  blackholeOn : Bool
deriving DecidableEq, Repr

instance : Inhabited Closure := ⟨⟨default, [], default, default, false⟩⟩

/-- One entry of a `CallCandidatesEventContent.candidates` list. -/
structure CandEntry where
  candidate : String
  sdpMid : Option String
  sdpMLineIndex : Option Nat
deriving DecidableEq, Repr

/-- Observable side effects, recorded in the trace with a timestamp. -/
inductive Action where
  | receiptSent (room evtId : String)
  | answerSent (room callId sdp : String)
  | hangupSent (room callId : String)
  /-- `raise RuntimeError` for an unsupported version (line 114). -/
  | fatalError (msg : String)
  /-- An exception escaped an event handler (maubot logs it). -/
  | handlerError (msg : String)
  /-- `pc.addIceCandidate` (line 100); `remoteSet` records whether the pc had
  a remote description at the moment of application. -/
  | addIce (remoteSet : Bool) (callId cand : String)
  | blackholeStart
  | blackholeStop
  | recStartAudio
  | recStartVideo
  | recStopAudio
  | recStopVideo
  | setAudioSource (src : String)
  | setVideoSource (src : String)
  | pcAddTrack (kind : String)
  | pcClosed
  /-- An exception escaped the `task()` coroutine (the pipeline dies). -/
  | pipelineError (msg : String)
deriving DecidableEq, Repr

/-- Defunctionalised suspended coroutines. -/
inductive TaskK where
  /-- `invite` suspended before `await pc.setRemoteDescription(offer)`
  (line 210); resuming runs lines 210-215 and suspends on
  `conn.candidate_waiter`. -/
  | inviteCont1 (uid : UID) (evtId : String) (offerSdp : String) (conn : Conn)
  /-- `invite` suspended at `await conn.candidate_waiter` (line 216);
  resuming runs lines 219-229. -/
  | inviteCont2 (uid : UID) (conn : Conn)
  /-- `candidates` handler suspended at `await conn.prepare_waiter`
  (line 86). -/
  | candTask (uid : UID) (evtId : String) (conn : Conn) (entries : List CandEntry)
  /-- The `task()` pipeline coroutine sleeping before `stage`, with `delay`
  tenths of a second remaining.  `hasVideo` caches the `video_recorder`
  truthiness decided at stage 1 (line 152). -/
  | pipeTask (pcId : Nat) (stage : Nat) (delay : Nat) (hasVideo : Bool)
deriving DecidableEq, Repr

/-- Whole-system state: the bot's `conns` registry, the heap of peer
connections, futures and invite closures, the suspended tasks, the trace of
observable actions, and the clock. -/
structure Sys where
  conns : List (UID × Conn)
  pcs : List PCState
  futures : List Bool
  closures : List Closure
  tasks : List TaskK
  trace : List (Nat × Action)
  now : Nat
deriving DecidableEq, Repr

/-- `start` (lines 68-70): empty registry. -/
def Sys.init : Sys := ⟨[], [], [], [], [], [], 0⟩

/-- Append an observable action at the current time. -/
def Sys.emit (s : Sys) (a : Action) : Sys := { s with trace := s.trace ++ [(s.now, a)] }

/-- Point update of a list (dict/attribute mutation on a heap object). -/
def updAt : List α → Nat → (α → α) → List α
  | [], _, _ => []
  | x :: xs, 0, f => f x :: xs
  | x :: xs, i + 1, f => x :: updAt xs i f

/-- `self.conns[unique_id]` lookup. -/
def lookupA : List (UID × Conn) → UID → Option Conn
  | [], _ => none
  | (k, v) :: rest, u => if k = u then some v else lookupA rest u

/-- Python dict assignment `self.conns[unique_id] = conn`: replace in place if
the key is present (insertion order kept), else append. -/
def insertA (l : List (UID × Conn)) (k : UID) (v : Conn) : List (UID × Conn) :=
  if l.any (fun p => p.1 = k) then
    l.map (fun p => if p.1 = k then (k, v) else p)
  else
    l ++ [(k, v)]

/-- `self.conns.pop(unique_id, ...)`: remove the key if present. -/
def removeA (l : List (UID × Conn)) (k : UID) : List (UID × Conn) :=
  l.filter (fun p => p.1 ≠ k)

/-- The candidate loop of the `candidates` handler (lines 87-101), entered
after `await conn.prepare_waiter` resolved.  An entry with an empty payload
resolves `conn.candidate_waiter` and breaks (`set_result` on an
already-resolved future raises `InvalidStateError`, escaping the handler, so no
receipt is sent); an unparseable entry is logged and skipped; otherwise the
candidate is applied with `pc.addIceCandidate`.  After the loop (or the break)
the receipt is sent (line 101). -/
def candLoop (parse : String → Option String) (uid : UID) (evtId : String)
    (conn : Conn) : List CandEntry → Sys → Sys
  | [], s => s.emit (.receiptSent uid.room evtId)
  | e :: rest, s =>
    if e.candidate = "" then
      if s.futures.getD conn.candidateFid false then
        s.emit (.handlerError "InvalidStateError")
      else
        let s1 : Sys := { s with futures := updAt s.futures conn.candidateFid (fun _ => true) }
        s1.emit (.receiptSent uid.room evtId)
    else
      match parse e.candidate with
      | none => candLoop parse uid evtId conn rest s
      | some c =>
        let remoteSet := ((s.pcs.getD conn.pcId PCState.fresh).remoteDesc).isSome
        let s1 : Sys :=
          { s with pcs := updAt s.pcs conn.pcId (fun p => { p with ice := p.ice ++ [c] }) }
        candLoop parse uid evtId conn rest (s1.emit (.addIce remoteSet uid.callId c))

/-- External events delivered to the bot's handlers and to the peer
connection's registered callbacks.  Connection-state and track events are
keyed by the pc they are callbacks of (the closure identifies the session). -/
inductive Ev where
  | invite (uid : UID) (evtId : String) (version : String) (offerSdp : String)
  | candidates (uid : UID) (evtId : String) (entries : List CandEntry)
  | hangup (uid : UID) (evtId : String)
  | connState (pcId : Nat) (st : String)
  | trackBound (pcId : Nat) (kind : String)
  | trackEnded (pcId : Nat) (kind : String)
deriving DecidableEq, Repr

/-- Deliver an event: run its handler up to the first true suspension point.

* `invite` (lines 111-209): version check (`raise RuntimeError` if not `"1"`),
  allocate the pc, the two futures and the closure, insert into the registry
  (dict assignment, line 125), then suspend as `inviteCont1`.
* `candidates` (lines 79-101): registry lookup, `KeyError` → silent return;
  if `prepare_waiter` is already resolved the `await` does not yield and the
  loop runs now, otherwise suspend as `candTask`.
* `hangup` (lines 103-109): `pop` (`KeyError` → silent return), close the pc,
  send the receipt.
* `connState` (lines 190-197): record the state; on `"failed"` close the pc
  and pop the registry entry; on `"connected"` spawn the pipeline
  (`asyncio.create_task(task())`), whose body starts with `sleep(8.1)`.
* `trackBound` (lines 199-203): record the input kind, feed the blackhole and
  add the matching proxy as an outbound track (`KeyError` for kinds without an
  output proxy).
* `trackEnded` (lines 205-208): stop the blackhole. -/
def deliver (parse : String → Option String) (e : Ev) (s : Sys) : Sys :=
  match e with
  | .invite uid evtId version offerSdp =>
    if version ≠ "1" then
      s.emit (.fatalError ("evt.content.version=" ++ version))
    else
      let pcId := s.pcs.length
      let conn : Conn := ⟨pcId, 2 * pcId, 2 * pcId + 1⟩
      let clo : Closure :=
        { uid := uid, inputTracks := [],
          audioTrack := ⟨some "hello", none⟩,
          videoTrack := ⟨none, some false⟩,
          blackholeOn := false }
      { s with
        pcs := s.pcs ++ [PCState.fresh],
        futures := s.futures ++ [false, false],
        closures := s.closures ++ [clo],
        conns := insertA s.conns uid conn,
        tasks := s.tasks ++ [.inviteCont1 uid evtId offerSdp conn] }
  | .candidates uid evtId entries =>
    match lookupA s.conns uid with
    | none => s
    | some conn =>
      if s.futures.getD conn.prepareFid false then
        candLoop parse uid evtId conn entries s
      else
        { s with tasks := s.tasks ++ [.candTask uid evtId conn entries] }
  | .hangup uid evtId =>
    match lookupA s.conns uid with
    | none => s
    | some conn =>
      let s1 : Sys := { s with conns := removeA s.conns uid }
      let s2 : Sys :=
        { s1 with pcs := updAt s1.pcs conn.pcId (fun p => { p with closed := true }) }
      (s2.emit .pcClosed).emit (.receiptSent uid.room evtId)
  | .connState pcId st =>
    if pcId < s.pcs.length then
      let s1 : Sys := { s with pcs := updAt s.pcs pcId (fun p => { p with connState := st }) }
      let uid := (s1.closures.getD pcId default).uid
      let s2 : Sys :=
        if st = "failed" then
          let sa : Sys :=
            { s1 with pcs := updAt s1.pcs pcId (fun p => { p with closed := true }) }
          let sb : Sys := sa.emit .pcClosed
          { sb with conns := removeA sb.conns uid }
        else s1
      if st = "connected" then
        { s2 with tasks := s2.tasks ++ [.pipeTask pcId 1 81 false] }
      else s2
    else s
  | .trackBound pcId kind =>
    let s1 : Sys :=
      { s with closures := updAt s.closures pcId (fun c =>
          { c with inputTracks :=
              if kind ∈ c.inputTracks then c.inputTracks else c.inputTracks ++ [kind] }) }
    if kind = "audio" ∨ kind = "video" then
      s1.emit (.pcAddTrack kind)
    else
      s1.emit (.handlerError "KeyError")
  | .trackEnded pcId _ =>
    let s1 : Sys :=
      { s with closures := updAt s.closures pcId (fun c => { c with blackholeOn := false }) }
    s1.emit .blackholeStop

/-- Is a suspended task able to make progress? -/
def taskReady (s : Sys) : TaskK → Bool
  | .inviteCont1 _ _ _ _ => true
  | .inviteCont2 _ conn => s.futures.getD conn.candidateFid false
  | .candTask _ _ conn _ => s.futures.getD conn.prepareFid false
  | .pipeTask _ _ delay _ => delay = 0

/-- Stage 1 body of `task()` (lines 143-157): stop the blackhole, start the
audio recorder on `input_tracks["audio"]` (an unbound audio input raises
`KeyError`, killing the task), start the video recorder iff a video input is
bound, then `sleep(10)`. -/
def execPipe1 (pcId : Nat) (s : Sys) : Sys :=
  let clo := s.closures.getD pcId default
  let s1 : Sys :=
    { s with closures := updAt s.closures pcId (fun c => { c with blackholeOn := false }) }
  let s2 := s1.emit .blackholeStop
  if "audio" ∈ clo.inputTracks then
    let s3 := s2.emit .recStartAudio
    let hv := decide ("video" ∈ clo.inputTracks)
    let s4 := if hv then s3.emit .recStartVideo else s3
    { s4 with tasks := s4.tasks ++ [.pipeTask pcId 2 100 hv] }
  else
    s2.emit (.pipelineError "KeyError")

/-- Stage 2 body of `task()` (lines 160-168): stop the recorder(s), switch
the audio proxy to the beep clip, re-enable the blackhole, then
`sleep(1.5)`. -/
def execPipe2 (pcId : Nat) (hasVideo : Bool) (s : Sys) : Sys :=
  let s1 := s.emit .recStopAudio
  let s2 := if hasVideo then s1.emit .recStopVideo else s1
  let clo := s2.closures.getD pcId default
  let st := clo.audioTrack.set_source "beep"
  let s3 : Sys :=
    { s2 with closures := updAt s2.closures pcId (fun c => { c with audioTrack := st.1 }) }
  if st.2 then s3.emit (.pipelineError "InvalidStateError")
  else
    let s4 := s3.emit (.setAudioSource "beep")
    let s5 : Sys :=
      { s4 with closures := updAt s4.closures pcId (fun c => { c with blackholeOn := true }) }
    let s6 := s5.emit .blackholeStart
    { s6 with tasks := s6.tasks ++ [.pipeTask pcId 3 15 hasVideo] }

/-- Stage 3 body of `task()` (lines 171-177): switch the audio (and, with
video, the video) proxy to the recorded playback, then `sleep(10)`. -/
def execPipe3 (pcId : Nat) (hasVideo : Bool) (s : Sys) : Sys :=
  let clo := s.closures.getD pcId default
  let st := clo.audioTrack.set_source "recording.wav"
  let s1 : Sys :=
    { s with closures := updAt s.closures pcId (fun c => { c with audioTrack := st.1 }) }
  if st.2 then s1.emit (.pipelineError "InvalidStateError")
  else
    let s2 := s1.emit (.setAudioSource "recording.wav")
    if hasVideo then
      let clo2 := s2.closures.getD pcId default
      let sv := clo2.videoTrack.set_source "recording.mp4"
      let s3 : Sys :=
        { s2 with closures := updAt s2.closures pcId (fun c => { c with videoTrack := sv.1 }) }
      if sv.2 then s3.emit (.pipelineError "InvalidStateError")
      else
        let s4 := s3.emit (.setVideoSource "recording.mp4")
        { s4 with tasks := s4.tasks ++ [.pipeTask pcId 4 100 hasVideo] }
    else
      { s2 with tasks := s2.tasks ++ [.pipeTask pcId 4 100 hasVideo] }

/-- Stage 4 body of `task()` (lines 179-182): switch the audio proxy to the
farewell clip, then `sleep(5)`. -/
def execPipe4 (pcId : Nat) (hasVideo : Bool) (s : Sys) : Sys :=
  let clo := s.closures.getD pcId default
  let st := clo.audioTrack.set_source "bye"
  let s1 : Sys :=
    { s with closures := updAt s.closures pcId (fun c => { c with audioTrack := st.1 }) }
  if st.2 then s1.emit (.pipelineError "InvalidStateError")
  else
    let s2 := s1.emit (.setAudioSource "bye")
    { s2 with tasks := s2.tasks ++ [.pipeTask pcId 5 50 hasVideo] }

/-- Stage 5 body of `task()` (lines 183-188): pop the registry entry (with
default, no error), send the hangup message, close the pc. -/
def execPipe5 (pcId : Nat) (s : Sys) : Sys :=
  let uid := (s.closures.getD pcId default).uid
  let s1 : Sys := { s with conns := removeA s.conns uid }
  let s2 := s1.emit (.hangupSent uid.room uid.callId)
  let s3 : Sys :=
    { s2 with pcs := updAt s2.pcs pcId (fun p => { p with closed := true }) }
  s3.emit .pcClosed

/-- Execute one pipeline stage of `task()` (lines 140-188); the task has just
finished the sleep preceding `stage`. -/
def execPipe (pcId : Nat) (stage : Nat) (hasVideo : Bool) (s : Sys) : Sys :=
  match stage with
  | 1 => execPipe1 pcId s
  | 2 => execPipe2 pcId hasVideo s
  | 3 => execPipe3 pcId hasVideo s
  | 4 => execPipe4 pcId hasVideo s
  | 5 => execPipe5 pcId s
  | _ => s

/-- Resume a suspended task: run its body to the next suspension point.
`inviteCont1` runs lines 210-215: apply the remote offer, start the blackhole,
resolve `prepare_waiter` (an already-resolved future raises), send the invite
receipt, and suspend on `candidate_waiter` as `inviteCont2`.  `inviteCont2`
runs lines 219-229: create and apply the local answer and send it.
`candTask` runs the candidate loop.  `pipeTask` runs its stage. -/
def execTask (parse : String → Option String) (t : TaskK) (s : Sys) : Sys :=
  match t with
  | .inviteCont1 uid evtId offerSdp conn =>
    let s1 : Sys :=
      { s with pcs := updAt s.pcs conn.pcId (fun p => { p with remoteDesc := some offerSdp }) }
    let s2 : Sys :=
      { s1 with closures := updAt s1.closures conn.pcId (fun c => { c with blackholeOn := true }) }
    let s3 := s2.emit .blackholeStart
    if s3.futures.getD conn.prepareFid false then
      s3.emit (.handlerError "InvalidStateError")
    else
      let s4 : Sys := { s3 with futures := updAt s3.futures conn.prepareFid (fun _ => true) }
      let s5 := s4.emit (.receiptSent uid.room evtId)
      { s5 with tasks := s5.tasks ++ [.inviteCont2 uid conn] }
  | .inviteCont2 uid conn =>
    let s1 : Sys :=
      { s with pcs := updAt s.pcs conn.pcId (fun p => { p with localDesc := some "answer-sdp" }) }
    s1.emit (.answerSent uid.room uid.callId "answer-sdp")
  | .candTask uid evtId conn entries => candLoop parse uid evtId conn entries s
  | .pipeTask pcId stage _ hasVideo => execPipe pcId stage hasVideo s

/-- Atomic steps of the explicit scheduler: deliver an external event, resume
the `i`-th suspended task (a no-op if it is absent or not ready), or let one
tenth of a second pass. -/
inductive SchedStep where
  | ev (e : Ev)
  | run (i : Nat)
  | tick
deriving DecidableEq, Repr

/-- Advance a sleeping pipeline task by one tick. -/
def tickTask : TaskK → TaskK
  | .pipeTask pcId st (d + 1) hv => .pipeTask pcId st d hv
  | t => t

/-- Resume task `i` if it exists and is ready; the task is dequeued before its
body runs (a continuation re-enqueues itself). -/
def runT (parse : String → Option String) (i : Nat) (s : Sys) : Sys :=
  match s.tasks.get? i with
  | none => s
  | some t =>
    if taskReady s t then execTask parse t { s with tasks := s.tasks.eraseIdx i }
    else s

/-- One scheduler step. -/
def stepSys (parse : String → Option String) (s : Sys) : SchedStep → Sys
  | .ev e => deliver parse e s
  | .run i => runT parse i s
  | .tick => { s with now := s.now + 1, tasks := s.tasks.map tickTask }

/-- Run a schedule from the freshly started bot. -/
def runSys (parse : String → Option String) (sched : List SchedStep) : Sys :=
  sched.foldl (stepSys parse) Sys.init

/-- Stand-in for the external aioice SDP candidate parser (not part of this
repository): accepts every payload except the designated string "bad". -/
def parseStd : String → Option String :=
  fun c => if c = "bad" then none else some c

/-! ## Invariant predicates -/

/-- The `WrappedConn` a suspended coroutine holds a reference to, if any. -/
def taskConn : TaskK → Option Conn
  | .inviteCont1 _ _ _ c => some c
  | .inviteCont2 _ c => some c
  | .candTask _ _ c _ => some c
  | .pipeTask _ _ _ _ => none

/-- Every `WrappedConn` reachable in the system: registry values plus the
conns captured by suspended coroutines. -/
def connsIn (s : Sys) : List Conn :=
  s.conns.map Prod.snd ++ s.tasks.filterMap taskConn

/-- Well-formedness of one reachable conn: its pc index is allocated, its two
future indices follow the allocation discipline of `invite` (candidate future
at `2 * pcId`, prepare future at `2 * pcId + 1`), and — the heart of the
candidate-gating invariant — if its `prepare_waiter` is resolved then its pc
has a remote description. -/
def ConnOK (s : Sys) (c : Conn) : Prop :=
  c.pcId < s.pcs.length ∧
  c.candidateFid = 2 * c.pcId ∧
  c.prepareFid = 2 * c.pcId + 1 ∧
  (s.futures.getD c.prepareFid false = true →
    ((s.pcs.getD c.pcId PCState.fresh).remoteDesc).isSome = true)

/-- System invariant: every reachable conn is well-formed. -/
def Inv (s : Sys) : Prop := ∀ c ∈ connsIn s, ConnOK s c

/-- An action respects the candidate gate: any candidate application recorded
in the trace happened while the pc had a remote description. -/
def flagOK : Action → Prop
  | .addIce remoteSet _ _ => remoteSet = true
  | _ => True

instance : DecidablePred flagOK := fun a => by
  cases a <;> simp [flagOK] <;> infer_instance

/-- Every action ever emitted respects the candidate gate. -/
def TraceOK (s : Sys) : Prop := ∀ p ∈ s.trace, flagOK p.2

/-- Combined inductive invariant for the gating theorem: the future store
follows the two-futures-per-pc allocation discipline, every reachable conn is
well-formed, and the trace respects the candidate gate. -/
def Good (s : Sys) : Prop := s.futures.length = 2 * s.pcs.length ∧ Inv s ∧ TraceOK s

/-! ## Concrete scenarios used by the claims -/

/-- A fixed call identity. -/
def uid0 : UID := ⟨"room1", "alice", "call1"⟩

/-- Happy-path schedule (claim C9): invite, negotiation, one candidate batch
ended by an empty entry, an audio input track, one "connected" notification,
then real time passing with the pipeline resumed at each due timer. -/
def sched9 : List SchedStep :=
  [.ev (.invite uid0 "e1" "1" "offer-sdp"),
   .run 0,
   .ev (.candidates uid0 "e2" [⟨"c1", some "0", some 0⟩, ⟨"", none, none⟩]),
   .run 0,
   .ev (.trackBound 0 "audio"),
   .ev (.connState 0 "connected")]
  ++ List.replicate 81 .tick ++ [.run 0]
  ++ List.replicate 100 .tick ++ [.run 0]
  ++ List.replicate 15 .tick ++ [.run 0]
  ++ List.replicate 100 .tick ++ [.run 0]
  ++ List.replicate 50 .tick ++ [.run 0]

/-- The trace the happy path produces (times in tenths of a second from the
invite; the "connected" notification arrives at time 0). -/
def trace9 : List (Nat × Action) :=
  [(0, .blackholeStart),
   (0, .receiptSent "room1" "e1"),
   (0, .addIce true "call1" "c1"),
   (0, .receiptSent "room1" "e2"),
   (0, .answerSent "room1" "call1" "answer-sdp"),
   (0, .pcAddTrack "audio"),
   (81, .blackholeStop),
   (81, .recStartAudio),
   (181, .recStopAudio),
   (181, .setAudioSource "beep"),
   (181, .blackholeStart),
   (196, .setAudioSource "recording.wav"),
   (296, .setAudioSource "bye"),
   (346, .hangupSent "room1" "call1"),
   (346, .pcClosed)]

/-- Happy-path schedule with both an audio and a video input track bound
(claim C9, video variant). -/
def sched9v : List SchedStep :=
  [.ev (.invite uid0 "e1" "1" "offer-sdp"),
   .run 0,
   .ev (.candidates uid0 "e2" [⟨"c1", some "0", some 0⟩, ⟨"", none, none⟩]),
   .run 0,
   .ev (.trackBound 0 "audio"),
   .ev (.trackBound 0 "video"),
   .ev (.connState 0 "connected")]
  ++ List.replicate 81 .tick ++ [.run 0]
  ++ List.replicate 100 .tick ++ [.run 0]
  ++ List.replicate 15 .tick ++ [.run 0]
  ++ List.replicate 100 .tick ++ [.run 0]
  ++ List.replicate 50 .tick ++ [.run 0]

/-- The trace of the video-variant happy path. -/
def trace9v : List (Nat × Action) :=
  [(0, .blackholeStart),
   (0, .receiptSent "room1" "e1"),
   (0, .addIce true "call1" "c1"),
   (0, .receiptSent "room1" "e2"),
   (0, .answerSent "room1" "call1" "answer-sdp"),
   (0, .pcAddTrack "audio"),
   (0, .pcAddTrack "video"),
   (81, .blackholeStop),
   (81, .recStartAudio),
   (81, .recStartVideo),
   (181, .recStopAudio),
   (181, .recStopVideo),
   (181, .setAudioSource "beep"),
   (181, .blackholeStart),
   (196, .setAudioSource "recording.wav"),
   (196, .setVideoSource "recording.mp4"),
   (296, .setAudioSource "bye"),
   (346, .hangupSent "room1" "call1"),
   (346, .pcClosed)]

/-- Is a suspended task a scripted-pipeline (`task()`) coroutine? -/
def isPipeTask : TaskK → Bool
  | .pipeTask _ _ _ _ => true
  | _ => false

/-- Schedule delivering the "connected" notification twice (claim C1). -/
def schedC1 : List SchedStep :=
  [.ev (.invite uid0 "e1" "1" "offer-sdp"), .run 0,
   .ev (.candidates uid0 "e2" [⟨"c1", some "0", some 0⟩, ⟨"", none, none⟩]), .run 0,
   .ev (.connState 0 "connected"), .ev (.connState 0 "connected")]

/-- Prefix of the claim-C2 schedule: happy path up to the 8.1s stage, then
1.9s later (time 100) a hangup event arrives mid-pipeline. -/
def schedC2a : List SchedStep :=
  [.ev (.invite uid0 "e1" "1" "offer-sdp"), .run 0,
   .ev (.candidates uid0 "e2" [⟨"c1", some "0", some 0⟩, ⟨"", none, none⟩]), .run 0,
   .ev (.trackBound 0 "audio"), .ev (.connState 0 "connected")]
  ++ List.replicate 81 .tick ++ [.run 0]
  ++ List.replicate 19 .tick ++ [.ev (.hangup uid0 "e3")]

/-- Full claim-C2 schedule: after the hangup, time keeps passing and the
event loop keeps running whatever tasks come due. -/
def schedC2 : List SchedStep :=
  schedC2a
  ++ List.replicate 81 .tick ++ [.run 0]
  ++ List.replicate 15 .tick ++ [.run 0]
  ++ List.replicate 100 .tick ++ [.run 0]
  ++ List.replicate 50 .tick ++ [.run 0]

/-- Two invites for the same call identity (claim C3). -/
def schedC3 : List SchedStep :=
  [.ev (.invite uid0 "e1" "1" "offer-A"), .ev (.invite uid0 "e4" "1" "offer-B")]

/-- A first candidate batch ended by an empty entry, then a second batch
consisting of another empty entry (claim C4). -/
def schedC4 : List SchedStep :=
  [.ev (.invite uid0 "e1" "1" "offer-sdp"), .run 0,
   .ev (.candidates uid0 "e2" [⟨"c1", some "0", some 0⟩, ⟨"", none, none⟩]),
   .ev (.candidates uid0 "e5" [⟨"", none, none⟩])]

/-- Candidates delivered before negotiation readiness (claim C5): the batch
arrives while `invite` is still suspended before `setRemoteDescription`; the
handler blocks on `prepare_waiter` and applies everything afterwards.  The
batch holds two valid candidates, one malformed entry and the end marker. -/
def schedC5pre : List SchedStep :=
  [.ev (.invite uid0 "e1" "1" "offer-sdp"),
   .ev (.candidates uid0 "e2"
      [⟨"c1", some "0", some 0⟩, ⟨"bad", none, none⟩, ⟨"c2", none, none⟩, ⟨"", none, none⟩]),
   .run 0, .run 0, .run 0]

/-- Candidates delivered after negotiation readiness (claim C5). -/
def schedC5post : List SchedStep :=
  [.ev (.invite uid0 "e1" "1" "offer-sdp"), .run 0,
   .ev (.candidates uid0 "e2"
      [⟨"c1", some "0", some 0⟩, ⟨"bad", none, none⟩, ⟨"c2", none, none⟩, ⟨"", none, none⟩]),
   .run 0]

/-- Happy path with no track ever bound (claim C10): the "connected"
notification arrives but no `on_track` callback fired, so at the 8.1s mark
`input_tracks["audio"]` raises `KeyError` inside `task()`. -/
def schedC10 : List SchedStep :=
  [.ev (.invite uid0 "e1" "1" "offer-sdp"), .run 0,
   .ev (.candidates uid0 "e2" [⟨"", none, none⟩]), .run 0,
   .ev (.connState 0 "connected")]
  ++ List.replicate 81 .tick ++ [.run 0]

/-! ## List helper lemmas -/

theorem getD_const (l : List α) (j : Nat) (d : α) (h : ∀ x ∈ l, x = d) :
    l.getD j d = d := by
  induction l generalizing j with
  | nil => simp [List.getD]
  | cons x xs ih =>
    cases j with
    | zero => simpa using h x (by simp)
    | succ j' => simpa using ih j' (fun x hx => h x (by simp [hx]))

theorem getD_append_pad (l l' : List α) (j : Nat) (d : α) (h : ∀ x ∈ l', x = d) :
    (l ++ l').getD j d = l.getD j d := by
  induction l generalizing j with
  | nil => simpa using getD_const l' j d h
  | cons x xs ih =>
    cases j with
    | zero => rfl
    | succ j' =>
      simp only [List.cons_append, List.getD_cons_succ]
      exact ih j'

theorem updAt_length (l : List α) (i : Nat) (f : α → α) :
    (updAt l i f).length = l.length := by
  induction l generalizing i with
  | nil => rfl
  | cons x xs ih => cases i <;> simp [updAt, ih]

theorem getD_updAt (l : List α) (i j : Nat) (f : α → α) (d : α) :
    (updAt l i f).getD j d =
      if j = i ∧ i < l.length then f (l.getD j d) else l.getD j d := by
  induction l generalizing i j with
  | nil => simp [updAt]
  | cons x xs ih =>
    cases i with
    | zero =>
      cases j with
      | zero => simp [updAt]
      | succ j' => simp [updAt]
    | succ i' =>
      cases j with
      | zero => simp [updAt]
      | succ j' =>
        simp only [updAt, List.getD_cons_succ, ih, List.length_cons]
        by_cases h1 : j' = i' <;> by_cases h2 : i' < xs.length <;>
          simp [h1, h2, Nat.succ_lt_succ_iff]

theorem lookupA_mem (l : List (UID × Conn)) (u : UID) (c : Conn)
    (h : lookupA l u = some c) : (u, c) ∈ l := by
  induction l with
  | nil => simp [lookupA] at h
  | cons p rest ih =>
    by_cases hk : p.1 = u
    · have : (p.1, p.2) = p := rfl
      rw [show p = (p.1, p.2) from rfl, lookupA] at h
      simp [hk] at h
      simp [hk ▸ h ▸ (rfl : (u, c) = (u, c))]
      left
      rw [← hk, ← h]
    · rw [show p = (p.1, p.2) from rfl, lookupA] at h
      simp [hk] at h
      simp [ih h]

theorem mem_of_eraseIdx (l : List α) (i : Nat) (a : α)
    (h : a ∈ l.eraseIdx i) : a ∈ l := by
  induction l generalizing i with
  | nil => simp [List.eraseIdx] at h
  | cons x xs ih =>
    cases i with
    | zero => simp [List.eraseIdx] at h; simp [h]
    | succ i' =>
      simp [List.eraseIdx] at h
      rcases h with h | h
      · simp [h]
      · simp [ih i' h]

theorem get?_mem_list (l : List α) (i : Nat) (a : α)
    (h : l.get? i = some a) : a ∈ l :=
  List.get?_mem h

theorem mem_removeA (l : List (UID × Conn)) (k : UID) (p : UID × Conn)
    (h : p ∈ removeA l k) : p ∈ l := by
  exact List.mem_of_mem_filter h

/-! ## Trace-extension and conn-transfer machinery -/

/-- `s'` extends the trace of `s` only with gate-respecting actions. -/
def TraceExt (s s' : Sys) : Prop := ∀ p ∈ s'.trace, p ∈ s.trace ∨ flagOK p.2

theorem traceExt_refl (s : Sys) : TraceExt s s := fun _p hp => Or.inl hp

theorem traceExt_trans {s s' s'' : Sys} (h1 : TraceExt s s') (h2 : TraceExt s' s'') :
    TraceExt s s'' := by
  intro p hp
  rcases h2 p hp with h | h
  · exact h1 p h
  · exact Or.inr h

theorem traceExt_of_eq {s s' : Sys} (h : s'.trace = s.trace) : TraceExt s s' := by
  intro p hp
  rw [h] at hp
  exact Or.inl hp

theorem traceExt_emit {s s' : Sys} (a : Action) (ha : flagOK a) (h : TraceExt s s') :
    TraceExt s (s'.emit a) := by
  intro p hp
  simp only [Sys.emit, List.mem_append, List.mem_singleton] at hp
  rcases hp with hp | hp
  · exact h p hp
  · subst hp
    exact Or.inr ha

theorem traceOK_of_ext {s s' : Sys} (h : TraceExt s s') (hs : TraceOK s) : TraceOK s' := by
  intro p hp
  rcases h p hp with h1 | h1
  · exact hs p h1
  · exact h1

theorem mem_connsIn (s : Sys) (c : Conn) :
    c ∈ connsIn s ↔ (∃ p ∈ s.conns, p.2 = c) ∨ (∃ t ∈ s.tasks, taskConn t = some c) := by
  simp [connsIn, List.mem_append, List.mem_map, List.mem_filterMap]

/-- Transfer well-formedness of a conn across a step that does not shrink the
pc store, only improves remote descriptions, and leaves every odd-indexed
future (the prepare futures) untouched. -/
theorem connOK_transfer (s s' : Sys) (c : Conn)
    (hlen : s.pcs.length ≤ s'.pcs.length)
    (hrem : ∀ j, ((s.pcs.getD j PCState.fresh).remoteDesc).isSome = true →
                 ((s'.pcs.getD j PCState.fresh).remoteDesc).isSome = true)
    (hfut : ∀ j, j % 2 = 1 → s'.futures.getD j false = s.futures.getD j false)
    (hok : ConnOK s c) : ConnOK s' c := by
  obtain ⟨hb, hc, hp, himp⟩ := hok
  refine ⟨Nat.lt_of_lt_of_le hb hlen, hc, hp, ?_⟩
  intro hfutT
  have hodd : c.prepareFid % 2 = 1 := by omega
  rw [hfut _ hodd] at hfutT
  exact hrem _ (himp hfutT)

/-- What one `candLoop` invocation does to the system, relative to the conn it
serves: registry, tasks, closures and clock unchanged, pc store same length
with all remote descriptions intact, futures changed at most at the conn's
candidate-future index, and only gate-respecting trace additions. -/
def LoopRel (conn : Conn) (s s' : Sys) : Prop :=
  s'.conns = s.conns ∧ s'.tasks = s.tasks ∧ s'.closures = s.closures ∧ s'.now = s.now ∧
  s'.pcs.length = s.pcs.length ∧
  (∀ j, ((s'.pcs.getD j PCState.fresh).remoteDesc) = ((s.pcs.getD j PCState.fresh).remoteDesc)) ∧
  (∀ j, j ≠ conn.candidateFid → s'.futures.getD j false = s.futures.getD j false) ∧
  TraceExt s s'

theorem loopRel_refl (conn : Conn) (s : Sys) : LoopRel conn s s :=
  ⟨rfl, rfl, rfl, rfl, rfl, fun _ => rfl, fun _ _ => rfl, traceExt_refl s⟩

theorem loopRel_trans {conn : Conn} {s s' s'' : Sys}
    (h1 : LoopRel conn s s') (h2 : LoopRel conn s' s'') : LoopRel conn s s'' := by
  obtain ⟨a1, b1, c1, d1, e1, f1, g1, t1⟩ := h1
  obtain ⟨a2, b2, c2, d2, e2, f2, g2, t2⟩ := h2
  refine ⟨a2.trans a1, b2.trans b1, c2.trans c1, d2.trans d1, e2.trans e1, ?_, ?_, ?_⟩
  · intro j
    exact (f2 j).trans (f1 j)
  · intro j hj
    exact (g2 j hj).trans (g1 j hj)
  · exact traceExt_trans t1 t2

theorem loopRel_emit {conn : Conn} {s s' : Sys} (a : Action) (ha : flagOK a)
    (h : LoopRel conn s s') : LoopRel conn s (s'.emit a) := by
  obtain ⟨a1, b1, c1, d1, e1, f1, g1, t1⟩ := h
  exact ⟨a1, b1, c1, d1, e1, f1, g1, traceExt_emit a ha t1⟩

theorem candLoop_rel (parse : String → Option String) (uid : UID) (evtId : String)
    (conn : Conn) (entries : List CandEntry) (s : Sys)
    (hrem : ((s.pcs.getD conn.pcId PCState.fresh).remoteDesc).isSome = true) :
    LoopRel conn s (candLoop parse uid evtId conn entries s) := by
  induction entries generalizing s with
  | nil =>
    exact loopRel_emit _ trivial (loopRel_refl conn s)
  | cons e rest ih =>
    rw [candLoop]
    by_cases he : e.candidate = ""
    · simp only [he, if_true]
      by_cases hf : s.futures.getD conn.candidateFid false
      · simp only [hf, if_true]
        exact loopRel_emit _ trivial (loopRel_refl conn s)
      · simp only [hf]
        simp only [Bool.false_eq_true, if_false]
        refine loopRel_emit _ trivial ?_
        refine ⟨rfl, rfl, rfl, rfl, rfl, fun _ => rfl, ?_, traceExt_of_eq rfl⟩
        intro j hj
        simp only [getD_updAt]
        have : ¬(j = conn.candidateFid ∧ conn.candidateFid < s.futures.length) := by
          intro ⟨h1, _⟩
          exact hj h1
        rw [if_neg this]
    · simp only [he, if_false]
      cases hp : parse e.candidate with
      | none => exact ih s hrem
      | some c =>
        simp only
        set s1 : Sys :=
          { s with pcs := updAt s.pcs conn.pcId (fun p => { p with ice := p.ice ++ [c] }) } with hs1
        have hrel1 : LoopRel conn s s1 := by
          refine ⟨rfl, rfl, rfl, rfl, ?_, ?_, fun _ _ => rfl, traceExt_of_eq rfl⟩
          · simp [hs1, updAt_length]
          · intro j
            simp only [hs1, getD_updAt]
            by_cases hcond : j = conn.pcId ∧ conn.pcId < s.pcs.length
            · rw [if_pos hcond]
            · rw [if_neg hcond]
        have hremS : ((s.pcs.getD conn.pcId PCState.fresh).remoteDesc).isSome = true := hrem
        have hflag : flagOK (Action.addIce
            ((s.pcs.getD conn.pcId PCState.fresh).remoteDesc).isSome uid.callId c) := hremS
        have hrel2 : LoopRel conn s (s1.emit (.addIce
            ((s.pcs.getD conn.pcId PCState.fresh).remoteDesc).isSome uid.callId c)) :=
          loopRel_emit _ hflag hrel1
        have hrem2 : (((s1.emit (.addIce
            ((s.pcs.getD conn.pcId PCState.fresh).remoteDesc).isSome uid.callId c)).pcs.getD
              conn.pcId PCState.fresh).remoteDesc).isSome = true := by
          have := hrel2.2.2.2.2.2.1 conn.pcId
          rw [this]
          exact hrem
        exact loopRel_trans hrel2 (ih _ hrem2)

/-- `candLoop` also preserves the length of the future store. -/
theorem candLoop_futLen (parse : String → Option String) (uid : UID) (evtId : String)
    (conn : Conn) (entries : List CandEntry) (s : Sys) :
    (candLoop parse uid evtId conn entries s).futures.length = s.futures.length := by
  induction entries generalizing s with
  | nil => rfl
  | cons e rest ih =>
    rw [candLoop]
    by_cases he : e.candidate = ""
    · simp only [he, if_true]
      by_cases hf : s.futures.getD conn.candidateFid false
      · simp only [hf, if_true]
        rfl
      · simp only [hf]
        simp only [Bool.false_eq_true, if_false]
        simp [Sys.emit, updAt_length]
    · simp only [he, if_false]
      cases hp : parse e.candidate with
      | none => exact ih s
      | some c =>
        simp only
        rw [ih]
        rfl

/-- A step that leaves the future store alone, keeps the pc store's length and
all remote descriptions, reaches no new conns, and extends the trace only with
gate-respecting actions. -/
def QuietRel (s s' : Sys) : Prop :=
  (∀ c ∈ connsIn s', c ∈ connsIn s) ∧
  s'.futures = s.futures ∧
  s'.pcs.length = s.pcs.length ∧
  (∀ j, ((s'.pcs.getD j PCState.fresh).remoteDesc) = ((s.pcs.getD j PCState.fresh).remoteDesc)) ∧
  TraceExt s s'

theorem quietRel_refl (s : Sys) : QuietRel s s :=
  ⟨fun _ h => h, rfl, rfl, fun _ => rfl, traceExt_refl s⟩

theorem good_of_quiet {s s' : Sys} (h : QuietRel s s') (hg : Good s) : Good s' := by
  obtain ⟨hconns, hfut, hlen, hrem, htr⟩ := h
  obtain ⟨hfl, hinv, htok⟩ := hg
  refine ⟨by rw [hfut, hlen, hfl], ?_, traceOK_of_ext htr htok⟩
  intro c hc
  refine connOK_transfer s s' c (le_of_eq hlen.symm) ?_ ?_ (hinv c (hconns c hc))
  · intro j hj
    rw [hrem j]
    exact hj
  · intro j _
    rw [hfut]

theorem mem_connsIn_of_parts {s s' : Sys}
    (hc : ∀ p ∈ s'.conns, p ∈ s.conns)
    (ht : ∀ c, c ∈ s'.tasks.filterMap taskConn → c ∈ s.tasks.filterMap taskConn) :
    ∀ c ∈ connsIn s', c ∈ connsIn s := by
  intro c hcc
  rw [mem_connsIn] at hcc ⊢
  rcases hcc with ⟨p, hp, hpc⟩ | ⟨t, ht', htc⟩
  · exact Or.inl ⟨p, hc p hp, hpc⟩
  · have := ht c (List.mem_filterMap.mpr ⟨t, ht', htc⟩)
    exact Or.inr (List.mem_filterMap.mp this)

theorem quietRel_emit {s s' : Sys} (a : Action) (ha : flagOK a) (h : QuietRel s s') :
    QuietRel s (s'.emit a) := by
  obtain ⟨h1, h2, h3, h4, h5⟩ := h
  exact ⟨h1, h2, h3, h4, traceExt_emit a ha h5⟩

theorem quietRel_updPcs {s s' : Sys} (i : Nat) (f : PCState → PCState)
    (hf : ∀ p, (f p).remoteDesc = p.remoteDesc) (h : QuietRel s s') :
    QuietRel s { s' with pcs := updAt s'.pcs i f } := by
  obtain ⟨h1, h2, h3, h4, h5⟩ := h
  refine ⟨h1, h2, by simp [updAt_length, h3], ?_, h5⟩
  intro j
  rw [show ({ s' with pcs := updAt s'.pcs i f } : Sys).pcs = updAt s'.pcs i f from rfl,
    getD_updAt]
  split
  · rw [hf]
    exact h4 j
  · exact h4 j

theorem quietRel_updClosures {s s' : Sys} (i : Nat) (f : Closure → Closure)
    (h : QuietRel s s') : QuietRel s { s' with closures := updAt s'.closures i f } := h

theorem quietRel_closePc {s s' : Sys} (i : Nat) (h : QuietRel s s') :
    QuietRel s { s' with pcs := updAt s'.pcs i (fun p => { p with closed := true }) } :=
  quietRel_updPcs i _ (fun _ => rfl) h

theorem quietRel_setConnState {s s' : Sys} (i : Nat) (st : String) (h : QuietRel s s') :
    QuietRel s { s' with pcs := updAt s'.pcs i (fun p => { p with connState := st }) } :=
  quietRel_updPcs i _ (fun _ => rfl) h

theorem quietRel_setLocal {s s' : Sys} (i : Nat) (d : Option String) (h : QuietRel s s') :
    QuietRel s { s' with pcs := updAt s'.pcs i (fun p => { p with localDesc := d }) } :=
  quietRel_updPcs i _ (fun _ => rfl) h

theorem quietRel_removeConns {s s' : Sys} (k : UID) (h : QuietRel s s') :
    QuietRel s { s' with conns := removeA s'.conns k } := by
  obtain ⟨h1, h2, h3, h4, h5⟩ := h
  refine ⟨?_, h2, h3, h4, h5⟩
  intro c hc
  rw [mem_connsIn] at hc
  refine h1 c ((mem_connsIn s' c).mpr ?_)
  rcases hc with ⟨p, hp, hpc⟩ | ⟨t, ht, htc⟩
  · exact Or.inl ⟨p, mem_removeA _ _ _ hp, hpc⟩
  · exact Or.inr ⟨t, ht, htc⟩

theorem quietRel_appendPipe {s s' : Sys} (a b c : Nat) (d : Bool) (h : QuietRel s s') :
    QuietRel s { s' with tasks := s'.tasks ++ [.pipeTask a b c d] } := by
  obtain ⟨h1, h2, h3, h4, h5⟩ := h
  refine ⟨?_, h2, h3, h4, h5⟩
  intro c hc
  rw [mem_connsIn] at hc
  refine h1 c ((mem_connsIn s' c).mpr ?_)
  rcases hc with ⟨p, hp, hpc⟩ | ⟨t, ht, htc⟩
  · exact Or.inl ⟨p, hp, hpc⟩
  · refine Or.inr ?_
    have ht' : t ∈ s'.tasks ++ [TaskK.pipeTask a b _ d] := ht
    rcases List.mem_append.mp ht' with h | h
    · exact ⟨t, h, htc⟩
    · rw [List.mem_singleton] at h
      subst h
      simp [taskConn] at htc

theorem quietRel_eraseTask {s s' : Sys} (i : Nat) (h : QuietRel s s') :
    QuietRel s { s' with tasks := s'.tasks.eraseIdx i } := by
  obtain ⟨h1, h2, h3, h4, h5⟩ := h
  refine ⟨?_, h2, h3, h4, h5⟩
  intro c hc
  rw [mem_connsIn] at hc
  refine h1 c ((mem_connsIn s' c).mpr ?_)
  rcases hc with ⟨p, hp, hpc⟩ | ⟨t, ht, htc⟩
  · exact Or.inl ⟨p, hp, hpc⟩
  · exact Or.inr ⟨t, mem_of_eraseIdx _ _ _ ht, htc⟩

theorem taskConn_tickTask (t : TaskK) : taskConn (tickTask t) = taskConn t := by
  cases t with
  | pipeTask a b c d => cases c <;> rfl
  | inviteCont1 _ _ _ _ => rfl
  | inviteCont2 _ _ => rfl
  | candTask _ _ _ _ => rfl

theorem quiet_tick (s : Sys) : QuietRel s (stepSys parse s .tick) := by
  refine ⟨?_, rfl, rfl, fun _ => rfl, traceExt_of_eq rfl⟩
  refine mem_connsIn_of_parts (fun p hp => hp) ?_
  intro c hc
  rw [show (stepSys parse s .tick).tasks = s.tasks.map tickTask from rfl] at hc
  rw [List.filterMap_map] at hc
  have : (taskConn ∘ tickTask) = taskConn := by
    funext t
    exact taskConn_tickTask t
  rwa [this] at hc

theorem quiet_execPipe1 (pcId : Nat) (s : Sys) : QuietRel s (execPipe1 pcId s) := by
  simp only [execPipe1]
  split
  · apply quietRel_appendPipe
    split
    · exact quietRel_emit _ trivial (quietRel_emit _ trivial (quietRel_emit _ trivial
        (quietRel_updClosures _ _ (quietRel_refl s))))
    · exact quietRel_emit _ trivial (quietRel_emit _ trivial
        (quietRel_updClosures _ _ (quietRel_refl s)))
  · exact quietRel_emit _ trivial (quietRel_emit _ trivial
      (quietRel_updClosures _ _ (quietRel_refl s)))

theorem quiet_execPipe2 (pcId : Nat) (hv : Bool) (s : Sys) :
    QuietRel s (execPipe2 pcId hv s) := by
  cases hv with
  | true =>
    simp only [execPipe2, eq_self_iff_true, if_true]
    split
    · exact quietRel_emit _ trivial (quietRel_updClosures _ _ (quietRel_emit _ trivial
        (quietRel_emit _ trivial (quietRel_refl s))))
    · apply quietRel_appendPipe
      exact quietRel_emit _ trivial (quietRel_updClosures _ _ (quietRel_emit _ trivial
        (quietRel_updClosures _ _ (quietRel_emit _ trivial (quietRel_emit _ trivial
          (quietRel_refl s))))))
  | false =>
    simp only [execPipe2, Bool.false_eq_true, if_false]
    split
    · exact quietRel_emit _ trivial (quietRel_updClosures _ _
        (quietRel_emit _ trivial (quietRel_refl s)))
    · apply quietRel_appendPipe
      exact quietRel_emit _ trivial (quietRel_updClosures _ _ (quietRel_emit _ trivial
        (quietRel_updClosures _ _ (quietRel_emit _ trivial (quietRel_refl s)))))

theorem quiet_execPipe3 (pcId : Nat) (hv : Bool) (s : Sys) :
    QuietRel s (execPipe3 pcId hv s) := by
  cases hv with
  | true =>
    simp only [execPipe3, eq_self_iff_true, if_true]
    split
    · exact quietRel_emit _ trivial (quietRel_updClosures _ _ (quietRel_refl s))
    · split
      · exact quietRel_emit _ trivial (quietRel_updClosures _ _ (quietRel_emit _ trivial
          (quietRel_updClosures _ _ (quietRel_refl s))))
      · apply quietRel_appendPipe
        exact quietRel_emit _ trivial (quietRel_updClosures _ _ (quietRel_emit _ trivial
          (quietRel_updClosures _ _ (quietRel_refl s))))
  | false =>
    simp only [execPipe3, Bool.false_eq_true, if_false]
    split
    · exact quietRel_emit _ trivial (quietRel_updClosures _ _ (quietRel_refl s))
    · apply quietRel_appendPipe
      exact quietRel_emit _ trivial (quietRel_updClosures _ _ (quietRel_refl s))

theorem quiet_execPipe4 (pcId : Nat) (hv : Bool) (s : Sys) :
    QuietRel s (execPipe4 pcId hv s) := by
  simp only [execPipe4]
  split
  · exact quietRel_emit _ trivial (quietRel_updClosures _ _ (quietRel_refl s))
  · apply quietRel_appendPipe
    exact quietRel_emit _ trivial (quietRel_updClosures _ _ (quietRel_refl s))

theorem quiet_execPipe5 (pcId : Nat) (s : Sys) : QuietRel s (execPipe5 pcId s) := by
  simp only [execPipe5]
  exact quietRel_emit _ trivial (quietRel_closePc _
    (quietRel_emit _ trivial (quietRel_removeConns _ (quietRel_refl s))))

theorem quiet_execPipe (pcId stage : Nat) (hv : Bool) (s : Sys) :
    QuietRel s (execPipe pcId stage hv s) := by
  match stage with
  | 0 => exact quietRel_refl s
  | 1 => exact quiet_execPipe1 pcId s
  | 2 => exact quiet_execPipe2 pcId hv s
  | 3 => exact quiet_execPipe3 pcId hv s
  | 4 => exact quiet_execPipe4 pcId hv s
  | 5 => exact quiet_execPipe5 pcId s
  | (n + 6) => exact quietRel_refl s

theorem mem_insertA (l : List (UID × Conn)) (k : UID) (v : Conn) (p : UID × Conn)
    (h : p ∈ insertA l k v) : p ∈ l ∨ p = (k, v) := by
  unfold insertA at h
  split at h
  · rw [List.mem_map] at h
    obtain ⟨q, hq, hqp⟩ := h
    by_cases hqk : q.1 = k
    · right
      rw [if_pos hqk] at hqp
      exact hqp.symm
    · left
      rw [if_neg hqk] at hqp
      exact hqp ▸ hq
  · rcases List.mem_append.mp h with h | h
    · exact Or.inl h
    · exact Or.inr (List.mem_singleton.mp h)

theorem good_candLoop (parse : String → Option String) (uid : UID) (evtId : String)
    (conn : Conn) (entries : List CandEntry) (s : Sys)
    (hok : ConnOK s conn) (hprep : s.futures.getD conn.prepareFid false = true)
    (hg : Good s) : Good (candLoop parse uid evtId conn entries s) := by
  obtain ⟨hfl, hinv, htok⟩ := hg
  obtain ⟨hb, hcfid, hpfid, himp⟩ := hok
  have hrem : ((s.pcs.getD conn.pcId PCState.fresh).remoteDesc).isSome = true := himp hprep
  obtain ⟨hc, ht, _hcl, _hn, hplen, hremP, hfutP, htr⟩ :=
    candLoop_rel parse uid evtId conn entries s hrem
  refine ⟨?_, ?_, traceOK_of_ext htr htok⟩
  · rw [candLoop_futLen, hfl, hplen]
  · intro c hcc
    have hcs : c ∈ connsIn s := by
      have heq : connsIn (candLoop parse uid evtId conn entries s) = connsIn s := by
        unfold connsIn
        rw [hc, ht]
      rwa [heq] at hcc
    refine connOK_transfer s _ c (le_of_eq hplen.symm) ?_ ?_ (hinv c hcs)
    · intro j hj
      rw [hremP j]
      exact hj
    · intro j hjodd
      refine hfutP j ?_
      rw [hcfid]
      omega

/-- The error branch of resuming `inviteCont1` (`prepare_waiter` was already
resolved): only the remote description was set and an error logged. -/
theorem good_cont1_err (offerSdp : String) (conn : Conn) (s s3 : Sys)
    (hconns : s3.conns = s.conns) (htasks : s3.tasks = s.tasks)
    (hfutE : s3.futures = s.futures)
    (hpcs : s3.pcs = updAt s.pcs conn.pcId (fun p => { p with remoteDesc := some offerSdp }))
    (htr : TraceExt s s3)
    (hok : ConnOK s conn) (hg : Good s) :
    Good (s3.emit (.handlerError "InvalidStateError")) := by
  obtain ⟨hfl, hinv, htok⟩ := hg
  obtain ⟨hb, _hcfid, _hpfid, _himp⟩ := hok
  have hs3rem : ∀ j, ((s3.pcs.getD j PCState.fresh).remoteDesc)
      = if j = conn.pcId then some offerSdp
        else ((s.pcs.getD j PCState.fresh).remoteDesc) := by
    intro j
    rw [hpcs, getD_updAt]
    by_cases hj : j = conn.pcId
    · rw [if_pos ⟨hj, hj ▸ hb⟩, if_pos hj]
    · rw [if_neg (fun hcon => hj hcon.1), if_neg hj]
  have hs3len : s3.pcs.length = s.pcs.length := by
    rw [hpcs]
    exact updAt_length _ _ _
  refine ⟨?_, ?_, ?_⟩
  · show s3.futures.length = 2 * s3.pcs.length
    rw [hfutE, hs3len, hfl]
  · intro c hc
    have hcs : c ∈ connsIn s := by
      have heq : connsIn (s3.emit (.handlerError "InvalidStateError")) = connsIn s := by
        unfold connsIn
        rw [show (s3.emit (.handlerError "InvalidStateError")).conns = s3.conns from rfl,
          show (s3.emit (.handlerError "InvalidStateError")).tasks = s3.tasks from rfl,
          hconns, htasks]
      rwa [heq] at hc
    obtain ⟨hb', hcfid', hpfid', himp'⟩ := hinv c hcs
    refine ⟨?_, hcfid', hpfid', ?_⟩
    · show c.pcId < s3.pcs.length
      rw [hs3len]
      exact hb'
    · intro hf
      have hf' : s.futures.getD c.prepareFid false = true := by
        rw [show (s3.emit (.handlerError "InvalidStateError")).futures = s3.futures from rfl,
          hfutE] at hf
        exact hf
      have := himp' hf'
      show ((s3.pcs.getD c.pcId PCState.fresh).remoteDesc).isSome = true
      rw [hs3rem]
      by_cases hpc : c.pcId = conn.pcId
      · rw [if_pos hpc]
        rfl
      · rw [if_neg hpc]
        exact this
  · exact traceOK_of_ext (traceExt_emit _ trivial htr) htok

/-- The success branch of resuming `inviteCont1`: remote description set,
`prepare_waiter` resolved, receipt sent, `inviteCont2` enqueued. -/
theorem good_cont1_ok (uid : UID) (evtId offerSdp : String) (conn : Conn) (s s3 : Sys)
    (hconns : s3.conns = s.conns) (htasks : s3.tasks = s.tasks)
    (hfutE : s3.futures = s.futures)
    (hpcs : s3.pcs = updAt s.pcs conn.pcId (fun p => { p with remoteDesc := some offerSdp }))
    (htr : TraceExt s s3)
    (hok : ConnOK s conn) (hg : Good s) :
    Good (let s4 : Sys := { s3 with futures := updAt s3.futures conn.prepareFid (fun _ => true) }
          let s5 : Sys := s4.emit (.receiptSent uid.room evtId)
          { s5 with tasks := s5.tasks ++ [.inviteCont2 uid conn] }) := by
  obtain ⟨hfl, hinv, htok⟩ := hg
  obtain ⟨hb, hcfid, hpfid, _himp⟩ := hok
  have hs3rem : ∀ j, ((s3.pcs.getD j PCState.fresh).remoteDesc)
      = if j = conn.pcId then some offerSdp
        else ((s.pcs.getD j PCState.fresh).remoteDesc) := by
    intro j
    rw [hpcs, getD_updAt]
    by_cases hj : j = conn.pcId
    · rw [if_pos ⟨hj, hj ▸ hb⟩, if_pos hj]
    · rw [if_neg (fun hcon => hj hcon.1), if_neg hj]
  have hs3len : s3.pcs.length = s.pcs.length := by
    rw [hpcs]
    exact updAt_length _ _ _
  have hfutN : ∀ j, j ≠ conn.prepareFid →
      (updAt s3.futures conn.prepareFid (fun _ => true)).getD j false
        = s.futures.getD j false := by
    intro j hj
    rw [getD_updAt, if_neg (fun hcon => hj hcon.1), hfutE]
  refine ⟨?_, ?_, ?_⟩
  · show (updAt s3.futures conn.prepareFid (fun _ => true)).length = 2 * s3.pcs.length
    rw [updAt_length, hfutE, hs3len, hfl]
  · intro c hc
    have hc' : c ∈ connsIn s ∨ c = conn := by
      rw [mem_connsIn] at hc
      rcases hc with ⟨p, hp, hpc⟩ | ⟨t, ht, htc⟩
      · have hp' : p ∈ s.conns := by
          have : p ∈ s3.conns := hp
          rwa [hconns] at this
        exact Or.inl ((mem_connsIn s c).mpr (Or.inl ⟨p, hp', hpc⟩))
      · have ht2 : t ∈ s3.tasks ++ [TaskK.inviteCont2 uid conn] := ht
        rcases List.mem_append.mp ht2 with h | h
        · have h' : t ∈ s.tasks := by rwa [htasks] at h
          exact Or.inl ((mem_connsIn s c).mpr (Or.inr ⟨t, h', htc⟩))
        · rw [List.mem_singleton] at h
          subst h
          simp only [taskConn, Option.some_inj] at htc
          exact Or.inr htc.symm
    have hgoal : ∀ (c : Conn), c.pcId < s.pcs.length → c.candidateFid = 2 * c.pcId →
        c.prepareFid = 2 * c.pcId + 1 →
        (s.futures.getD c.prepareFid false = true →
          ((s.pcs.getD c.pcId PCState.fresh).remoteDesc).isSome = true) →
        (c.pcId < s3.pcs.length ∧ c.candidateFid = 2 * c.pcId ∧
         c.prepareFid = 2 * c.pcId + 1 ∧
         ((updAt s3.futures conn.prepareFid (fun _ => true)).getD c.prepareFid false = true →
          ((s3.pcs.getD c.pcId PCState.fresh).remoteDesc).isSome = true)) := by
      intro c hb' hcfid' hpfid' himp'
      refine ⟨by rw [hs3len]; exact hb', hcfid', hpfid', ?_⟩
      intro hf
      by_cases hsame : c.prepareFid = conn.prepareFid
      · have hpc : c.pcId = conn.pcId := by omega
        rw [hs3rem, if_pos hpc]
        rfl
      · rw [hfutN _ hsame] at hf
        have := himp' hf
        rw [hs3rem]
        by_cases hpc : c.pcId = conn.pcId
        · rw [if_pos hpc]
          rfl
        · rw [if_neg hpc]
          exact this
    rcases hc' with hcs | hceq
    · obtain ⟨hb', hcfid', hpfid', himp'⟩ := hinv c hcs
      exact hgoal c hb' hcfid' hpfid' himp'
    · subst hceq
      refine ⟨?_, hcfid, hpfid, ?_⟩
      · show c.pcId < s3.pcs.length
        rw [hs3len]
        exact hb
      · intro _
        show ((s3.pcs.getD c.pcId PCState.fresh).remoteDesc).isSome = true
        rw [hs3rem, if_pos rfl]
        rfl
  · exact traceOK_of_ext (traceExt_emit _ trivial htr) htok

theorem good_inviteCont1 (parse : String → Option String) (uid : UID)
    (evtId offerSdp : String) (conn : Conn) (s : Sys)
    (hok : ConnOK s conn) (hg : Good s) :
    Good (execTask parse (.inviteCont1 uid evtId offerSdp conn) s) := by
  simp only [execTask]
  split
  · refine good_cont1_err offerSdp conn s _ ?_ ?_ ?_ ?_ ?_ hok hg
    · rfl
    · rfl
    · rfl
    · rfl
    · exact traceExt_emit _ trivial (traceExt_of_eq rfl)
  · refine good_cont1_ok uid evtId offerSdp conn s _ ?_ ?_ ?_ ?_ ?_ hok hg
    · rfl
    · rfl
    · rfl
    · rfl
    · exact traceExt_emit _ trivial (traceExt_of_eq rfl)

theorem getD_of_le (l : List α) (i : Nat) (d : α) (h : l.length ≤ i) :
    l.getD i d = d := by
  induction l generalizing i with
  | nil => simp [List.getD]
  | cons x xs ih =>
    cases i with
    | zero => simp at h
    | succ i' =>
      simp only [List.getD_cons_succ]
      exact ih i' (by simpa using h)

theorem good_deliver (parse : String → Option String) (e : Ev) (s : Sys) (hg : Good s) :
    Good (deliver parse e s) := by
  cases e with
  | invite uid evtId version offerSdp =>
    simp only [deliver]
    split
    · exact good_of_quiet (quietRel_emit _ trivial (quietRel_refl s)) hg
    · refine ⟨?_, ?_, ?_⟩
      · show (s.futures ++ [false, false]).length = 2 * (s.pcs ++ [PCState.fresh]).length
        simp only [List.length_append, List.length_cons, List.length_nil, hg.1]
        omega
      · intro c hc
        have hsplit : c ∈ connsIn s ∨ c = (⟨s.pcs.length, 2 * s.pcs.length,
            2 * s.pcs.length + 1⟩ : Conn) := by
          rw [mem_connsIn] at hc
          rcases hc with ⟨p, hp, hpc⟩ | ⟨t, ht, htc⟩
          · rcases mem_insertA _ _ _ _ hp with h | h
            · exact Or.inl ((mem_connsIn s c).mpr (Or.inl ⟨p, h, hpc⟩))
            · right
              rw [h] at hpc
              exact hpc.symm
          · have ht2 : t ∈ s.tasks ++ [TaskK.inviteCont1 uid evtId offerSdp
                ⟨s.pcs.length, 2 * s.pcs.length, 2 * s.pcs.length + 1⟩] := ht
            rcases List.mem_append.mp ht2 with h | h
            · exact Or.inl ((mem_connsIn s c).mpr (Or.inr ⟨t, h, htc⟩))
            · rw [List.mem_singleton] at h
              subst h
              simp only [taskConn, Option.some_inj] at htc
              exact Or.inr htc.symm
        have hremP : ∀ j, (((s.pcs ++ [PCState.fresh]).getD j PCState.fresh).remoteDesc)
            = ((s.pcs.getD j PCState.fresh).remoteDesc) := by
          intro j
          rw [getD_append_pad _ _ _ _ (by intro x hx; simpa using hx)]
        have hfutP : ∀ j, ((s.futures ++ [false, false]).getD j false)
            = s.futures.getD j false := by
          intro j
          rw [getD_append_pad]
          intro x hx
          simpa using (by rcases List.mem_cons.mp hx with h | h
                          · exact h
                          · simpa using h)
        rcases hsplit with hcs | hceq
        · obtain ⟨hb', hcfid', hpfid', himp'⟩ := hg.2.1 c hcs
          refine ⟨?_, hcfid', hpfid', ?_⟩
          · show c.pcId < (s.pcs ++ [PCState.fresh]).length
            simp only [List.length_append, List.length_cons, List.length_nil]
            omega
          · intro hf
            have hf' : s.futures.getD c.prepareFid false = true := by
              have : ((s.futures ++ [false, false]).getD c.prepareFid false) = true := hf
              rwa [hfutP] at this
            have := himp' hf'
            show (((s.pcs ++ [PCState.fresh]).getD c.pcId PCState.fresh).remoteDesc).isSome
              = true
            rw [hremP]
            exact this
        · subst hceq
          refine ⟨?_, rfl, rfl, ?_⟩
          · show s.pcs.length < (s.pcs ++ [PCState.fresh]).length
            simp
          · intro hf
            exfalso
            have : ((s.futures ++ [false, false]).getD (2 * s.pcs.length + 1) false)
                = true := hf
            rw [hfutP, getD_of_le _ _ _ (by rw [hg.1]; omega)] at this
            simp at this
      · exact hg.2.2
  | candidates uid evtId entries =>
    simp only [deliver]
    split
    · exact hg
    · next conn hL =>
      split
      · next hprep =>
        have hmem : conn ∈ connsIn s :=
          (mem_connsIn s conn).mpr (Or.inl ⟨(uid, conn), lookupA_mem _ _ _ hL, rfl⟩)
        exact good_candLoop parse uid evtId conn entries s (hg.2.1 conn hmem) hprep hg
      · refine ⟨hg.1, ?_, hg.2.2⟩
        intro c hc
        have hcs : c ∈ connsIn s := by
          rw [mem_connsIn] at hc
          rcases hc with ⟨p, hp, hpc⟩ | ⟨t, ht, htc⟩
          · exact (mem_connsIn s c).mpr (Or.inl ⟨p, hp, hpc⟩)
          · have ht2 : t ∈ s.tasks ++ [TaskK.candTask uid evtId conn entries] := ht
            rcases List.mem_append.mp ht2 with h | h
            · exact (mem_connsIn s c).mpr (Or.inr ⟨t, h, htc⟩)
            · rw [List.mem_singleton] at h
              subst h
              simp only [taskConn, Option.some_inj] at htc
              exact (mem_connsIn s c).mpr
                (Or.inl ⟨(uid, conn), lookupA_mem _ _ _ hL, htc⟩)
        exact hg.2.1 c hcs
  | hangup uid evtId =>
    simp only [deliver]
    split
    · exact hg
    · apply good_of_quiet ?_ hg
      exact quietRel_emit _ trivial (quietRel_emit _ trivial (quietRel_closePc _
        (quietRel_removeConns _ (quietRel_refl s))))
  | connState pcId st =>
    simp only [deliver]
    split
    · split
      · apply good_of_quiet ?_ hg
        apply quietRel_appendPipe
        split
        · exact quietRel_removeConns _ (quietRel_emit _ trivial
            (quietRel_closePc _ (quietRel_setConnState _ _ (quietRel_refl s))))
        · exact quietRel_setConnState _ _ (quietRel_refl s)
      · apply good_of_quiet ?_ hg
        split
        · exact quietRel_removeConns _ (quietRel_emit _ trivial
            (quietRel_closePc _ (quietRel_setConnState _ _ (quietRel_refl s))))
        · exact quietRel_setConnState _ _ (quietRel_refl s)
    · exact hg
  | trackBound pcId kind =>
    simp only [deliver]
    split
    · exact good_of_quiet (quietRel_emit _ trivial
        (quietRel_updClosures _ _ (quietRel_refl s))) hg
    · exact good_of_quiet (quietRel_emit _ trivial
        (quietRel_updClosures _ _ (quietRel_refl s))) hg
  | trackEnded pcId kind =>
    simp only [deliver]
    exact good_of_quiet (quietRel_emit _ trivial
      (quietRel_updClosures _ _ (quietRel_refl s))) hg

theorem good_runT (parse : String → Option String) (i : Nat) (s : Sys) (hg : Good s) :
    Good (runT parse i s) := by
  unfold runT
  split
  · exact hg
  · next t hT =>
    split
    · next hr =>
      have htm : t ∈ s.tasks := get?_mem_list _ _ _ hT
      have hgE : Good { s with tasks := s.tasks.eraseIdx i } :=
        good_of_quiet (quietRel_eraseTask i (quietRel_refl s)) hg
      cases t with
      | inviteCont1 uid evtId offerSdp conn =>
        have hok : ConnOK s conn :=
          hg.2.1 conn ((mem_connsIn s conn).mpr (Or.inr ⟨_, htm, rfl⟩))
        exact good_inviteCont1 parse uid evtId offerSdp conn _ hok hgE
      | inviteCont2 uid conn =>
        apply good_of_quiet ?_ hgE
        exact quietRel_emit _ trivial (quietRel_setLocal _ _ (quietRel_refl _))
      | candTask uid evtId conn entries =>
        have hok : ConnOK s conn :=
          hg.2.1 conn ((mem_connsIn s conn).mpr (Or.inr ⟨_, htm, rfl⟩))
        have hprep : s.futures.getD conn.prepareFid false = true := hr
        exact good_candLoop parse uid evtId conn entries _ hok hprep hgE
      | pipeTask pcId stage delay hv =>
        exact good_of_quiet (quiet_execPipe pcId stage hv _) hgE
    · exact hg

theorem good_step (parse : String → Option String) (st : SchedStep) (s : Sys)
    (hg : Good s) : Good (stepSys parse s st) := by
  cases st with
  | ev e => exact good_deliver parse e s hg
  | run i => exact good_runT parse i s hg
  | tick => exact good_of_quiet (quiet_tick s) hg

theorem good_init : Good Sys.init := by
  refine ⟨rfl, ?_, ?_⟩
  · intro c hc
    simp [connsIn, Sys.init] at hc
  · intro p hp
    simp [Sys.init] at hp

/-- Every reachable system state is well-formed and gate-respecting. -/
theorem good_runSys (parse : String → Option String) (sched : List SchedStep) :
    Good (runSys parse sched) := by
  suffices h : ∀ s, Good s → Good (List.foldl (stepSys parse) s sched) from h _ good_init
  induction sched with
  | nil => exact fun s h => h
  | cons st rest ih => exact fun s h => ih _ (good_step parse st s h)

/-! ## Registry-key discipline (claim C3) -/

/-- Every step leaves the registry alone, removes one key, or performs one
dict assignment. -/
def ConnsShape (s s' : Sys) : Prop :=
  s'.conns = s.conns ∨ (∃ k, s'.conns = removeA s.conns k) ∨
  (∃ k v, s'.conns = insertA s.conns k v)

theorem candLoop_conns (parse : String → Option String) (uid : UID) (evtId : String)
    (conn : Conn) (entries : List CandEntry) (s : Sys) :
    (candLoop parse uid evtId conn entries s).conns = s.conns := by
  induction entries generalizing s with
  | nil => rfl
  | cons e rest ih =>
    rw [candLoop]
    by_cases he : e.candidate = ""
    · simp only [he, if_true]
      by_cases hf : s.futures.getD conn.candidateFid false
      · simp only [hf, if_true]
        rfl
      · simp only [hf]
        simp only [Bool.false_eq_true, if_false]
        rfl
    · simp only [he, if_false]
      cases hp : parse e.candidate with
      | none => exact ih s
      | some c =>
        simp only
        rw [ih]
        rfl

theorem conns_execPipe1 (pcId : Nat) (s : Sys) : (execPipe1 pcId s).conns = s.conns := by
  simp only [execPipe1]
  split
  · split <;> rfl
  · rfl

theorem conns_execPipe2 (pcId : Nat) (hv : Bool) (s : Sys) :
    (execPipe2 pcId hv s).conns = s.conns := by
  cases hv with
  | true =>
    simp only [execPipe2, eq_self_iff_true, if_true]
    split <;> rfl
  | false =>
    simp only [execPipe2, Bool.false_eq_true, if_false]
    split <;> rfl

theorem conns_execPipe3 (pcId : Nat) (hv : Bool) (s : Sys) :
    (execPipe3 pcId hv s).conns = s.conns := by
  cases hv with
  | true =>
    simp only [execPipe3, eq_self_iff_true, if_true]
    split
    · rfl
    · split <;> rfl
  | false =>
    simp only [execPipe3, Bool.false_eq_true, if_false]
    split <;> rfl

theorem conns_execPipe4 (pcId : Nat) (hv : Bool) (s : Sys) :
    (execPipe4 pcId hv s).conns = s.conns := by
  simp only [execPipe4]
  split <;> rfl

theorem conns_execPipe5 (pcId : Nat) (s : Sys) :
    (execPipe5 pcId s).conns = removeA s.conns ((s.closures.getD pcId default).uid) := rfl

theorem connsShape_execPipe (pcId stage : Nat) (hv : Bool) (s : Sys) :
    ConnsShape s (execPipe pcId stage hv s) := by
  match stage with
  | 0 => exact Or.inl rfl
  | 1 => exact Or.inl (conns_execPipe1 pcId s)
  | 2 => exact Or.inl (conns_execPipe2 pcId hv s)
  | 3 => exact Or.inl (conns_execPipe3 pcId hv s)
  | 4 => exact Or.inl (conns_execPipe4 pcId hv s)
  | 5 => exact Or.inr (Or.inl ⟨_, conns_execPipe5 pcId s⟩)
  | (n + 6) => exact Or.inl rfl

theorem connsShape_step (parse : String → Option String) (st : SchedStep) (s : Sys) :
    ConnsShape s (stepSys parse s st) := by
  cases st with
  | tick => exact Or.inl rfl
  | run i =>
    show ConnsShape s (runT parse i s)
    unfold runT
    split
    · exact Or.inl rfl
    · next t hT =>
      split
      · cases t with
        | inviteCont1 uid evtId offerSdp conn =>
          simp only [execTask]
          split
          · exact Or.inl rfl
          · exact Or.inl rfl
        | inviteCont2 uid conn => exact Or.inl rfl
        | candTask uid evtId conn entries =>
          exact Or.inl (candLoop_conns parse uid evtId conn entries _)
        | pipeTask pcId stage delay hv => exact connsShape_execPipe pcId stage hv _
      · exact Or.inl rfl
  | ev e =>
    show ConnsShape s (deliver parse e s)
    cases e with
    | invite uid evtId version offerSdp =>
      simp only [deliver]
      split
      · exact Or.inl rfl
      · exact Or.inr (Or.inr ⟨uid, _, rfl⟩)
    | candidates uid evtId entries =>
      simp only [deliver]
      split
      · exact Or.inl rfl
      · split
        · exact Or.inl (candLoop_conns _ _ _ _ _ _)
        · exact Or.inl rfl
    | hangup uid evtId =>
      simp only [deliver]
      split
      · exact Or.inl rfl
      · exact Or.inr (Or.inl ⟨uid, rfl⟩)
    | connState pcId st =>
      simp only [deliver]
      split
      · split
        · split
          · exact Or.inr (Or.inl ⟨_, rfl⟩)
          · exact Or.inl rfl
        · split
          · exact Or.inr (Or.inl ⟨_, rfl⟩)
          · exact Or.inl rfl
      · exact Or.inl rfl
    | trackBound pcId kind =>
      simp only [deliver]
      split
      · exact Or.inl rfl
      · exact Or.inl rfl
    | trackEnded pcId kind => exact Or.inl rfl

theorem nodup_keys_insertA (l : List (UID × Conn)) (k : UID) (v : Conn)
    (h : (l.map Prod.fst).Nodup) : ((insertA l k v).map Prod.fst).Nodup := by
  unfold insertA
  split
  · have heq : ((l.map (fun p => if p.1 = k then (k, v) else p)).map Prod.fst)
        = l.map Prod.fst := by
      rw [List.map_map]
      apply List.map_congr_left
      intro p _hp
      by_cases hpk : p.1 = k
      · simp [Function.comp, hpk]
      · simp [Function.comp, hpk]
    rwa [heq]
  · next hany =>
    have hk : k ∉ l.map Prod.fst := by
      intro hmem
      rw [List.mem_map] at hmem
      obtain ⟨p, hp, hpk⟩ := hmem
      exact hany (List.any_eq_true.mpr ⟨p, hp, by simp [hpk]⟩)
    rw [List.map_append]
    rw [List.nodup_append]
    refine ⟨h, List.nodup_singleton k, ?_⟩
    intro a ha hb
    simp only [List.map_cons, List.map_nil, List.mem_singleton] at hb
    subst hb
    exact hk ha

theorem nodup_keys_removeA (l : List (UID × Conn)) (k : UID)
    (h : (l.map Prod.fst).Nodup) : ((removeA l k).map Prod.fst).Nodup :=
  h.sublist ((List.filter_sublist l).map Prod.fst)

theorem nodup_keys_shape {s s' : Sys} (h : ConnsShape s s')
    (hn : (s.conns.map Prod.fst).Nodup) : (s'.conns.map Prod.fst).Nodup := by
  rcases h with h | ⟨k, h⟩ | ⟨k, v, h⟩
  · rw [h]
    exact hn
  · rw [h]
    exact nodup_keys_removeA _ _ hn
  · rw [h]
    exact nodup_keys_insertA _ _ _ hn

/-- In every reachable state the registry holds at most one entry per call
identity (dict-key semantics). -/
theorem nodup_keys_runSys (parse : String → Option String) (sched : List SchedStep) :
    (((runSys parse sched).conns.map Prod.fst).Nodup) := by
  suffices h : ∀ s, (s.conns.map Prod.fst).Nodup →
      ((List.foldl (stepSys parse) s sched).conns.map Prod.fst).Nodup by
    exact h Sys.init (by simp [Sys.init])
  induction sched with
  | nil => exact fun s h => h
  | cons st rest ih => exact fun s h => ih _ (nodup_keys_shape (connsShape_step parse st s) h)

/-! ## Candidate-loop batch lemmas (claim C4) -/

/-- Entries after the first empty entry of a batch are never processed: the
loop breaks at the empty entry (line 91). -/
theorem candLoop_stops_at_empty (parse : String → Option String) (uid : UID)
    (evtId : String) (conn : Conn) (pre post : List CandEntry)
    (m : Option String) (mi : Option Nat) (s : Sys) :
    candLoop parse uid evtId conn (pre ++ ⟨"", m, mi⟩ :: post) s
      = candLoop parse uid evtId conn (pre ++ [⟨"", m, mi⟩]) s := by
  induction pre generalizing s with
  | nil =>
    simp only [List.nil_append]
    rw [candLoop, candLoop,
      if_pos (show (⟨"", m, mi⟩ : CandEntry).candidate = "" from rfl),
      if_pos (show (⟨"", m, mi⟩ : CandEntry).candidate = "" from rfl)]
  | cons e pre' ih =>
    simp only [List.cons_append]
    rw [candLoop, candLoop]
    by_cases he : e.candidate = ""
    · simp only [he, if_true]
    · simp only [he, if_false]
      cases hp : parse e.candidate with
      | none => exact ih _
      | some c =>
        simp only
        exact ih _

/-- Once the candidate future is resolved, the empty entry of a later batch
makes `set_result` raise `InvalidStateError`: the handler dies and no receipt
is sent. -/
theorem candLoop_second_empty (parse : String → Option String) (uid : UID)
    (evtId : String) (conn : Conn) (m : Option String) (mi : Option Nat)
    (rest : List CandEntry) (s : Sys)
    (h : s.futures.getD conn.candidateFid false = true) :
    candLoop parse uid evtId conn (⟨"", m, mi⟩ :: rest) s
      = s.emit (.handlerError "InvalidStateError") := by
  rw [candLoop]
  rw [if_pos (show (⟨"", m, mi⟩ : CandEntry).candidate = "" from rfl)]
  rw [if_pos h]

/-! ## Claims -/

/-- C1 counterexample: the code has no guard in `on_connectionstatechange`
(lines 190-197) — after two "connected" notifications for the same session,
two scripted-pipeline tasks are pending, refuting "the scripted pipeline is
started at most once per session". -/
theorem C1_counterexample :
    (runSys parseStd schedC1).tasks
      = [.pipeTask 0 1 81 false, .pipeTask 0 1 81 false] ∧
    ¬ (((runSys parseStd schedC1).tasks.countP isPipeTask) ≤ 1) := by
  constructor
  · rfl
  · decide

/-- C1 amended: every "connected" notification delivered to a live peer
connection spawns a fresh pipeline task (`asyncio.create_task(task())`,
line 197), with no once-per-session guard: repeated notifications start the
pipeline again. -/
theorem C1_amended (parse : String → Option String) (pcId : Nat) (s : Sys)
    (h : pcId < s.pcs.length) :
    (deliver parse (.connState pcId "connected") s).tasks
      = s.tasks ++ [.pipeTask pcId 1 81 false] := by
  simp only [deliver]
  rw [if_pos h]
  simp only [if_true]
  rfl

/-- C1 amended, witness at a session created by one invite. -/
theorem C1_amended_witness :
    0 < (runSys parseStd [.ev (.invite uid0 "e1" "1" "offer-sdp")]).pcs.length ∧
    (deliver parseStd (.connState 0 "connected")
        (runSys parseStd [.ev (.invite uid0 "e1" "1" "offer-sdp")])).tasks
      = (runSys parseStd [.ev (.invite uid0 "e1" "1" "offer-sdp")]).tasks
        ++ [.pipeTask 0 1 81 false] :=
  ⟨by decide, C1_amended parseStd 0 _ (by decide)⟩

/-- C2 counterexample: a hangup handled mid-pipeline (time 100) removes the
registry entry and is acknowledged, but the pipeline timer is still pending
afterwards, and at time 346 the undead pipeline sends a hangup signaling
message — after the teardown, refuting "no further signaling message is
sent". -/
theorem C2_counterexample :
    (runSys parseStd schedC2a).tasks = [.pipeTask 0 2 81 false] ∧
    (runSys parseStd schedC2a).trace.getLast? = some (100, .receiptSent "room1" "e3") ∧
    (runSys parseStd schedC2a).conns = [] ∧
    (346, Action.hangupSent "room1" "call1") ∈ (runSys parseStd schedC2).trace := by
  refine ⟨rfl, rfl, rfl, by decide⟩

/-- C2 amended: neither the `hangup` handler (lines 103-109) nor the "failed"
branch of `on_connectionstatechange` (lines 193-195) cancels any pending
task: the set of suspended coroutines (and so the pipeline's timers) is left
untouched; the pipeline keeps running and later performs its own teardown. -/
theorem C2_amended (parse : String → Option String) (uid : UID) (evtId : String)
    (pcId : Nat) (s : Sys) :
    (deliver parse (.hangup uid evtId) s).tasks = s.tasks ∧
    (deliver parse (.connState pcId "failed") s).tasks = s.tasks := by
  constructor
  · simp only [deliver]
    split
    · rfl
    · rfl
  · simp only [deliver]
    split
    · simp only [if_true]
      rfl
    · rfl

/-- C3 counterexample: `invite` assigns `self.conns[unique_id]` blindly
(line 125), so a second invite for the same identity replaces the first
session's entry with a fresh conn (new pc, new futures), silently shadowing
it — refuting "handling a second invite does not replace the existing
entry". -/
theorem C3_counterexample :
    (runSys parseStd [.ev (.invite uid0 "e1" "1" "offer-A")]).conns
      = [(uid0, ⟨0, 0, 1⟩)] ∧
    (runSys parseStd schedC3).conns = [(uid0, ⟨1, 2, 3⟩)] :=
  ⟨rfl, rfl⟩

/-- C3 amended: at most one registry entry per call identity holds in every
reachable state (dict-key semantics), but a second invite for a present
identity does replace the existing entry with the new session. -/
theorem C3_amended :
    (∀ (parse : String → Option String) (sched : List SchedStep),
      (((runSys parse sched).conns.map Prod.fst).Nodup)) ∧
    (runSys parseStd schedC3).conns = [(uid0, ⟨1, 2, 3⟩)] :=
  ⟨nodup_keys_runSys, rfl⟩

/-- C4 counterexample: after a first batch ended by an empty entry, a second
batch consisting of an empty entry makes `candidate_waiter.set_result`
(line 90) raise `InvalidStateError`: the handler errors out and the batch
receipt is never sent — refuting "any further empty entries in a subsequent
batch are absorbed without error". -/
theorem C4_counterexample :
    (runSys parseStd schedC4).trace
      = [(0, .blackholeStart), (0, .receiptSent "room1" "e1"),
         (0, .addIce true "call1" "c1"), (0, .receiptSent "room1" "e2"),
         (0, .handlerError "InvalidStateError")] := rfl

/-- C4 amended: within a single batch the loop stops at the first empty entry
(so later empty entries of the same batch are absorbed without error and
without signaling again), but an empty entry in a subsequent batch for the
same session raises `InvalidStateError` while resolving the already-resolved
end-of-candidates future: the handler fails and sends no receipt (it never
signals twice). -/
theorem C4_amended :
    (∀ (parse : String → Option String) (uid : UID) (evtId : String) (conn : Conn)
       (pre post : List CandEntry) (m : Option String) (mi : Option Nat) (s : Sys),
      candLoop parse uid evtId conn (pre ++ ⟨"", m, mi⟩ :: post) s
        = candLoop parse uid evtId conn (pre ++ [⟨"", m, mi⟩]) s) ∧
    (∀ (parse : String → Option String) (uid : UID) (evtId : String) (conn : Conn)
       (m : Option String) (mi : Option Nat) (rest : List CandEntry) (s : Sys),
      s.futures.getD conn.candidateFid false = true →
      candLoop parse uid evtId conn (⟨"", m, mi⟩ :: rest) s
        = s.emit (.handlerError "InvalidStateError")) :=
  ⟨fun parse uid evtId conn pre post m mi s =>
      candLoop_stops_at_empty parse uid evtId conn pre post m mi s,
   fun parse uid evtId conn m mi rest s h =>
      candLoop_second_empty parse uid evtId conn m mi rest s h⟩

/-- C4 amended, witness: the state after a completed first batch has the
candidate future resolved, and a second empty batch errors there. -/
theorem C4_amended_witness :
    ((runSys parseStd [.ev (.invite uid0 "e1" "1" "offer-sdp"), .run 0,
        .ev (.candidates uid0 "e2" [⟨"c1", some "0", some 0⟩,
          ⟨"", none, none⟩])]).futures.getD ((⟨0, 0, 1⟩ : Conn)).candidateFid false
      = true) ∧
    (candLoop parseStd uid0 "e5" ⟨0, 0, 1⟩ [⟨"", none, none⟩]
        (runSys parseStd [.ev (.invite uid0 "e1" "1" "offer-sdp"), .run 0,
          .ev (.candidates uid0 "e2" [⟨"c1", some "0", some 0⟩, ⟨"", none, none⟩])])
      = (runSys parseStd [.ev (.invite uid0 "e1" "1" "offer-sdp"), .run 0,
          .ev (.candidates uid0 "e2" [⟨"c1", some "0", some 0⟩,
            ⟨"", none, none⟩])]).emit (.handlerError "InvalidStateError")) :=
  ⟨by decide, C4_amended.2 parseStd uid0 "e5" ⟨0, 0, 1⟩ none none [] _ (by decide)⟩

/-- C5: no candidate is ever applied to the peer connection before its remote
description has been set: in every reachable state of every schedule, every
`addIce` action in the trace carries a true remote-description snapshot
(general gating invariant); moreover candidates are applied without loss both
when the batch arrives before negotiation readiness (the handler suspends on
`prepare_waiter` and applies everything afterwards) and when it arrives after
— in both scenarios exactly the two valid candidates are applied, the
malformed entry is skipped and the post-end entries dropped. -/
theorem C5_candidate_gating :
    (∀ (parse : String → Option String) (sched : List SchedStep),
      ∀ p ∈ (runSys parse sched).trace, flagOK p.2) ∧
    (runSys parseStd schedC5pre).pcs
      = [{ remoteDesc := some "offer-sdp", localDesc := some "answer-sdp",
           ice := ["c1", "c2"], connState := "new", closed := false }] ∧
    (runSys parseStd schedC5post).pcs
      = [{ remoteDesc := some "offer-sdp", localDesc := some "answer-sdp",
           ice := ["c1", "c2"], connState := "new", closed := false }] := by
  refine ⟨?_, rfl, rfl⟩
  intro parse sched p hp
  exact (good_runSys parse sched).2.2 p hp

/-- C5 witness: the gating invariant applied to a concrete trace element of
the before-readiness scenario. -/
theorem C5_candidate_gating_witness :
    ((0, Action.addIce true "call1" "c1") ∈ (runSys parseStd schedC5pre).trace) ∧
    flagOK ((0, Action.addIce true "call1" "c1") : Nat × Action).2 :=
  ⟨by decide, C5_candidate_gating.1 parseStd schedC5pre
    (0, Action.addIce true "call1" "c1") (by decide)⟩

/-- C6: a hangup or candidates event for an identity absent from the registry
is a complete no-op — the handlers return on `KeyError` (lines 84-85,
108-109) before any receipt, state change or error. -/
theorem C6_unknown_identity (parse : String → Option String) (uid : UID)
    (evtId : String) (entries : List CandEntry) (s : Sys)
    (h : lookupA s.conns uid = none) :
    deliver parse (.hangup uid evtId) s = s ∧
    deliver parse (.candidates uid evtId entries) s = s := by
  constructor
  · simp only [deliver, h]
  · simp only [deliver, h]

/-- C6 witness: on the freshly started bot, both events are no-ops. -/
theorem C6_unknown_identity_witness :
    lookupA Sys.init.conns uid0 = none ∧
    (deliver parseStd (.hangup uid0 "ex") Sys.init = Sys.init ∧
     deliver parseStd (.candidates uid0 "ex" [⟨"c1", none, none⟩]) Sys.init = Sys.init) :=
  ⟨by decide, C6_unknown_identity parseStd uid0 "ex" [⟨"c1", none, none⟩] Sys.init (by decide)⟩

/-- C7: an invite whose version is not "1" raises `RuntimeError` (line 114)
before any session state exists: registry, pc store, futures and task set are
untouched, and the only observable effect is the surfaced fatal error — in
particular no answer and no receipt is ever sent for that call. -/
theorem C7_unsupported_version (parse : String → Option String) (uid : UID)
    (evtId version offerSdp : String) (s : Sys) (hv : version ≠ "1") :
    (deliver parse (.invite uid evtId version offerSdp) s).conns = s.conns ∧
    (deliver parse (.invite uid evtId version offerSdp) s).pcs = s.pcs ∧
    (deliver parse (.invite uid evtId version offerSdp) s).futures = s.futures ∧
    (deliver parse (.invite uid evtId version offerSdp) s).tasks = s.tasks ∧
    (deliver parse (.invite uid evtId version offerSdp) s).trace
      = s.trace ++ [(s.now, .fatalError ("evt.content.version=" ++ version))] := by
  have h : deliver parse (.invite uid evtId version offerSdp) s
      = s.emit (.fatalError ("evt.content.version=" ++ version)) := by
    simp only [deliver]
    rw [if_pos hv]
  rw [h]
  exact ⟨rfl, rfl, rfl, rfl, rfl⟩

/-- C7 witness: end-to-end with version "2" on the fresh bot. -/
theorem C7_unsupported_version_witness :
    (("2" : String) ≠ "1") ∧
    ((deliver parseStd (.invite uid0 "e1" "2" "offer-sdp") Sys.init).conns
        = Sys.init.conns ∧
     (deliver parseStd (.invite uid0 "e1" "2" "offer-sdp") Sys.init).pcs = Sys.init.pcs ∧
     (deliver parseStd (.invite uid0 "e1" "2" "offer-sdp") Sys.init).futures
        = Sys.init.futures ∧
     (deliver parseStd (.invite uid0 "e1" "2" "offer-sdp") Sys.init).tasks
        = Sys.init.tasks ∧
     (deliver parseStd (.invite uid0 "e1" "2" "offer-sdp") Sys.init).trace
        = Sys.init.trace ++ [(Sys.init.now, .fatalError "evt.content.version=2")]) :=
  ⟨by decide, C7_unsupported_version parseStd uid0 "e1" "2" "offer-sdp" Sys.init (by decide)⟩

/-- C8 counterexample: a `ProxyTrack` built without a source (the video track,
line 136) has an armed rendezvous future; the first `set_source` resolves it
and succeeds, but a second `set_source` calls `set_result` on the
already-resolved future and raises `InvalidStateError` (lines 35-38) — the
producer can NOT be swapped repeatedly without error.  Also, when an
exhausted producer's replacement is itself exhausted, the second
`MediaStreamError` propagates to the puller (lines 43-49 catch only one). -/
theorem C8_counterexample :
    ((ProxyTrack.set_source ⟨none, some false⟩ ([5] : List Nat)).2 = false) ∧
    (((ProxyTrack.set_source ⟨none, some false⟩ ([5] : List Nat)).1.set_source [6]).2
      = true) ∧
    (ProxyTrack.recv ⟨some [], some false⟩ [[]]
      = .mediaError ⟨some [], some true⟩) := by
  refine ⟨rfl, rfl, rfl⟩

/-- C8 amended: (a) a pull with no producer blocks while no `set_source`
happens and otherwise completes with the first frame of the newly installed
producer; (b) a pull whose producer is exhausted re-blocks without surfacing
an error and resumes from a replacement, provided the replacement delivers a
frame; (c) `set_source` is error-free whenever the rendezvous future is
absent or still pending, but a further `set_source` after the future was
resolved raises `InvalidStateError` (the new producer is still installed
first). -/
theorem C8_amended :
    (∀ (n : Nat) (rest : List Nat) (env1 : List (List Nat)),
      ProxyTrack.recv ⟨none, some false⟩ ([] : List (List Nat))
          = .blocked ⟨none, some false⟩ ∧
      ProxyTrack.recv ⟨none, some false⟩ ((n :: rest) :: env1)
          = .frame n ⟨some rest, some true⟩) ∧
    (∀ (w : Option Bool) (n : Nat) (rest : List Nat) (env1 : List (List Nat)),
      ProxyTrack.recv ⟨some [], w⟩ ([] : List (List Nat))
          = .blocked ⟨none, some false⟩ ∧
      ProxyTrack.recv ⟨some [], w⟩ ((n :: rest) :: env1)
          = .frame n ⟨some rest, some true⟩) ∧
    (∀ (p : List Nat) (q : Option (List Nat)),
      (ProxyTrack.set_source (⟨q, none⟩ : ProxyTrack (List Nat)) p)
          = (⟨some p, none⟩, false) ∧
      (ProxyTrack.set_source (⟨q, some false⟩ : ProxyTrack (List Nat)) p)
          = (⟨some p, some true⟩, false) ∧
      (ProxyTrack.set_source (⟨q, some true⟩ : ProxyTrack (List Nat)) p)
          = (⟨some p, some true⟩, true)) := by
  refine ⟨fun n rest env1 => ⟨rfl, rfl⟩, fun w n rest env1 => ⟨?_, ?_⟩,
    fun p q => ⟨rfl, rfl, rfl⟩⟩
  · cases w with
    | none => rfl
    | some b => cases b <;> rfl
  · cases w with
    | none => rfl
    | some b => cases b <;> rfl

/-- C9: on the happy path the session performs exactly the specified sequence
with the specified delays (times in tenths of a second after the invite):
invite receipt, candidate application, answer only after end-of-candidates,
then — from the "connected" notification at time 0 — blackhole stop and
recording start at 8.1s, recording stop and beep at 18.1s, playback at
19.6s, farewell at 29.6s, and at 34.6s registry removal, hangup message and
engine close; audio is always recorded, video only when a video input track
is bound (second conjunct). -/
theorem C9_happy_path :
    ((runSys parseStd sched9).trace = trace9 ∧
     (runSys parseStd sched9).conns = [] ∧
     (runSys parseStd sched9).pcs
       = [{ remoteDesc := some "offer-sdp", localDesc := some "answer-sdp",
            ice := ["c1"], connState := "connected", closed := true }]) ∧
    ((runSys parseStd sched9v).trace = trace9v ∧
     (runSys parseStd sched9v).conns = [] ∧
     (runSys parseStd sched9v).pcs
       = [{ remoteDesc := some "offer-sdp", localDesc := some "answer-sdp",
            ice := ["c1"], connState := "connected", closed := true }]) :=
  ⟨⟨rfl, rfl, rfl⟩, ⟨rfl, rfl, rfl⟩⟩

/-- C10: if no audio input track was bound before the 8.1s mark, the pipeline
aborts with the unhandled `KeyError` from `input_tracks["audio"]` (line 150)
right after stopping the blackhole: recording never starts, the pipeline
sends no hangup and its task is gone, the registry entry survives, and only a
later external hangup removes it. -/
theorem C10_missing_audio_track :
    (runSys parseStd schedC10).trace
      = [(0, .blackholeStart), (0, .receiptSent "room1" "e1"),
         (0, .receiptSent "room1" "e2"), (0, .answerSent "room1" "call1" "answer-sdp"),
         (81, .blackholeStop), (81, .pipelineError "KeyError")] ∧
    (runSys parseStd schedC10).tasks = [] ∧
    (runSys parseStd schedC10).conns = [(uid0, ⟨0, 0, 1⟩)] ∧
    (runSys parseStd (schedC10 ++ [.ev (.hangup uid0 "e6")])).conns = [] :=
  ⟨rfl, rfl, rfl, rfl⟩

end EchoRTC
